import Mathlib

/-!
SimJobFlow: greedy scheduler for unrelated machines with real-time arrival.

A shallow embedding of `src/machine/unrelated_machine.hpp` and of
`src/scheduler/greedy/greedy_scheduler_unrelated_real_time_arrival.hpp`,
followed by theorems about the matching loop (`schedule`) and the time
advance (`updateMachineState`).

Conventions of the embedding.

* `int32_t` / `int64_t` values are `Int`. The only arithmetic in the code is
  the subtraction `remaining_time_ - elapsing_time`; signed overflow is
  undefined behaviour in C++, so the model describes the executions whose
  behaviour is defined. The constant `INT64_MAX` is
  `std::numeric_limits<int64_t>::max()`.
* `std::vector` is `List`; an out-of-range `operator[]` and a failing
  `assert` make the embedded function return `none`.
* The scheduler object is the record `GreedySchedulerUnrelatedRealTimeArrival`;
  member functions take it as an argument and return the new one. The machine
  vector, passed by reference in the code, is passed in and returned.
* `Invalid_Job_Id` is used by `setFree` but declared in `job.hpp`, which is not
  part of the sources at hand: it is a parameter of every definition that
  needs it.
-/

namespace SJF

/-! ## Data model -/

/-- The constant `UnrelatedMachine::Invalid_Machine_Id`. -/
def Invalid_Machine_Id : Int := -1

/-- The constant `UnrelatedMachine::Invalid_Remaining_Time`, the "not busy"
sentinel. `updateMachineState` names `Invalid_Remaining_Time` without the class;
it is read as this same constant. -/
def Invalid_Remaining_Time : Int := -1

/-- The value of `std::numeric_limits<int64_t>::max()`. -/
def INT64_MAX : Int := 9223372036854775807

/-- Modelled from the spec: the job record of `job.hpp` (not among the sources):
an identity, an arrival time and one processing time per machine index. The
field names are the ones the scheduler and the tests use. -/
structure UnrelatedJob where
  id_ : Int
  timestamp_ : Int
  processing_time_ : List Int
deriving DecidableEq

/-- The struct `UnrelatedMachine`. -/
structure UnrelatedMachine where
  machineId_ : Int
  job_id_ : Int
  remaining_time_ : Int
deriving DecidableEq

/-- Modelled from the spec: the record `ScheduleStep` (its declaration is not
among the sources), built in the code as
`ScheduleStep(timestamp, job id, machine id)`. -/
structure ScheduleStep where
  timestamp_ : Int
  job_id_ : Int
  machine_id_ : Int
deriving DecidableEq

/-- The data members of the scheduler: `accumulated_jobs_` (in vector order,
the back of the vector is the last element) and `is_done_`. -/
structure GreedySchedulerUnrelatedRealTimeArrival where
  accumulated_jobs_ : List UnrelatedJob
  is_done_ : Bool
deriving DecidableEq

/-- The constructor `GreedySchedulerUnrelatedRealTimeArrival()`: no pending job,
`is_done_ = false`. -/
def GreedySchedulerUnrelatedRealTimeArrival.fresh : GreedySchedulerUnrelatedRealTimeArrival :=
  { accumulated_jobs_ := [], is_done_ := false }

section Machine

variable (Invalid_Job_Id : Int)

/-- The constructor `UnrelatedMachine()`: every member keeps its default. -/
def UnrelatedMachine.default : UnrelatedMachine :=
  { machineId_ := Invalid_Machine_Id, job_id_ := Invalid_Job_Id,
    remaining_time_ := Invalid_Remaining_Time }

/-- The constructor `UnrelatedMachine(int32_t machineId)`. -/
def UnrelatedMachine.withId (machineId : Int) : UnrelatedMachine :=
  { machineId_ := machineId, job_id_ := Invalid_Job_Id,
    remaining_time_ := Invalid_Remaining_Time }

/-- The member `UnrelatedMachine::setFree`. -/
def setFree (machine : UnrelatedMachine) : UnrelatedMachine :=
  { machine with job_id_ := Invalid_Job_Id, remaining_time_ := Invalid_Remaining_Time }

end Machine

/-- Modelled from the spec: `isFree()`, called by `schedule` but not declared in
the `UnrelatedMachine` at hand: true iff `remaining_time` equals the "not busy"
sentinel. -/
def isFree (machine : UnrelatedMachine) : Bool :=
  decide (machine.remaining_time_ = Invalid_Remaining_Time)

/-- Modelled from the spec: `execute(job)`, called by `schedule` but not
declared in the `UnrelatedMachine` at hand: sets `current_job_id` to the job's
id and `remaining_time` to `job.processing_time[machine.id]`. Reading outside
the vector gives `none`. -/
def execute (machine : UnrelatedMachine) (job : UnrelatedJob) : Option UnrelatedMachine :=
  if machine.machineId_ < 0 then none
  else
    match job.processing_time_[machine.machineId_.toNat]? with
    | none => none
    | some t => some { machine with job_id_ := job.id_, remaining_time_ := t }

/-! ## `schedule` -/

/-- The three locals of one matching step that the scan over the machines
updates: `num_free_machine`, `min_executing_time`, `target_machine_id`. -/
structure ScanState where
  num_free_machine : Nat
  min_executing_time : Int
  target_machine_id : Int
deriving DecidableEq

/-- The values the locals have before the scan. -/
def ScanState.init : ScanState :=
  { num_free_machine := 0, min_executing_time := INT64_MAX, target_machine_id := -1 }

/-- The loop `for(size_t i = 0; i < machines.size(); i++)` of `schedule`, from
index `i` on, over the machines not yet visited. -/
def scanMachines (current_job : UnrelatedJob) :
    List UnrelatedMachine → Nat → ScanState → Option ScanState
  | [], _, st => some st
  | machine :: rest, i, st =>
    if isFree machine then
      match current_job.processing_time_[i]? with
      | none => none
      | some expected_executing_time =>
        if expected_executing_time < st.min_executing_time then
          scanMachines current_job rest (i + 1)
            { num_free_machine := st.num_free_machine + 1,
              min_executing_time := expected_executing_time,
              target_machine_id := (i : Int) }
        else
          scanMachines current_job rest (i + 1)
            { st with num_free_machine := st.num_free_machine + 1 }
    else scanMachines current_job rest (i + 1) st

/-- The body of `if(num_free_machine != 0)`: the assertion, then
`machines[target_machine_id].execute(current_job)` and the emitted step. -/
def assignJob (timestamp : Int) (current_job : UnrelatedJob)
    (machines : List UnrelatedMachine) (st : ScanState) :
    Option (List UnrelatedMachine × ScheduleStep) :=
  if st.target_machine_id ≠ -1 ∧ st.min_executing_time ≠ INT64_MAX then
    match machines[st.target_machine_id.toNat]? with
    | none => none
    | some machine =>
      match execute machine current_job with
      | none => none
      | some machine' =>
        some (machines.set st.target_machine_id.toNat machine',
              { timestamp_ := timestamp, job_id_ := current_job.id_,
                machine_id_ := st.target_machine_id })
  else none

/-- The loop `while(!accumulated_jobs_.empty())` of `schedule`. The pending
jobs are passed back first: the head of the list is `accumulated_jobs_.back()`
and `pop_back` drops it. When `num_free_machine` is `0` nothing is assigned and
the test `num_free_machine <= 1` leaves the loop. -/
def scheduleLoop (timestamp : Int) :
    List UnrelatedJob → List UnrelatedMachine → List ScheduleStep →
    Option (List UnrelatedJob × List UnrelatedMachine × List ScheduleStep)
  | [], machines, schedule_steps => some ([], machines, schedule_steps)
  | current_job :: rest, machines, schedule_steps =>
    match scanMachines current_job machines 0 ScanState.init with
    | none => none
    | some st =>
      if st.num_free_machine ≠ 0 then
        match assignJob timestamp current_job machines st with
        | none => none
        | some (machines', step) =>
          if st.num_free_machine ≤ 1 then
            some (rest, machines', schedule_steps ++ [step])
          else
            scheduleLoop timestamp rest machines' (schedule_steps ++ [step])
      else
        some (current_job :: rest, machines, schedule_steps)

/-- The result of a call of `schedule`: the scheduler and the machine vector
after the call, and the returned steps. -/
structure ScheduleResult where
  scheduler : GreedySchedulerUnrelatedRealTimeArrival
  machines : List UnrelatedMachine
  steps : List ScheduleStep
deriving DecidableEq

/-- The member `schedule(jobs_for_this_turn, machines, timestamp)`. -/
def schedule (self : GreedySchedulerUnrelatedRealTimeArrival)
    (jobs_for_this_turn : List UnrelatedJob) (machines : List UnrelatedMachine)
    (timestamp : Int) : Option ScheduleResult :=
  match scheduleLoop timestamp (self.accumulated_jobs_ ++ jobs_for_this_turn).reverse
      machines [] with
  | none => none
  | some (pending, machines', schedule_steps) =>
    some { scheduler := { self with accumulated_jobs_ := pending.reverse },
           machines := machines', steps := schedule_steps }

/-! ## `updateMachineState` and `done` -/

section Update

variable (Invalid_Job_Id : Int)

/-- The loop `for(size_t i = 0; i < machines.size(); i++)` of
`updateMachineState`, carrying the local `done_flag`. -/
def updateLoop (elapsing_time : Int) :
    List UnrelatedMachine → Bool → List UnrelatedMachine × Bool
  | [], done_flag => ([], done_flag)
  | machine :: rest, done_flag =>
    if machine.remaining_time_ ≠ Invalid_Remaining_Time then
      let machine1 : UnrelatedMachine :=
        { machine with remaining_time_ := max 0 (machine.remaining_time_ - elapsing_time) }
      let machine2 : UnrelatedMachine :=
        if machine1.remaining_time_ = 0 then setFree Invalid_Job_Id machine1 else machine1
      let r := updateLoop elapsing_time rest false
      (machine2 :: r.1, r.2)
    else
      let r := updateLoop elapsing_time rest done_flag
      (machine :: r.1, r.2)

/-- The member `updateMachineState(machines, elapsing_time)`, the spec's
`advanceTime`. -/
def updateMachineState (self : GreedySchedulerUnrelatedRealTimeArrival)
    (machines : List UnrelatedMachine) (elapsing_time : Int) :
    GreedySchedulerUnrelatedRealTimeArrival × List UnrelatedMachine :=
  let r := updateLoop Invalid_Job_Id elapsing_time machines self.accumulated_jobs_.isEmpty
  ({ self with is_done_ := r.2 }, r.1)

end Update

/-- The member `done()`. -/
def done (self : GreedySchedulerUnrelatedRealTimeArrival) : Bool :=
  self.is_done_

/-! ## Predicates and data used in the statements -/

/-- The number of free machines of a machine vector. -/
def countFree (machines : List UnrelatedMachine) : Nat :=
  machines.countP isFree

/-- The selection rule of a matching step: `i` is the index of a free machine,
the job's processing time there is below `INT64_MAX`, minimal among the free
machines, and strictly smaller than on every free machine of lower index. -/
def Selected (job : UnrelatedJob) (machines : List UnrelatedMachine) (i : Nat) : Prop :=
  ∃ m t, machines[i]? = some m ∧ isFree m = true ∧ job.processing_time_[i]? = some t ∧
    t < INT64_MAX ∧
    ∀ j m', machines[j]? = some m' → isFree m' = true →
      ∃ t', job.processing_time_[j]? = some t' ∧ t ≤ t' ∧ (j < i → t < t')

/-- Free/busy exclusivity of one machine: the job id is the "no job" sentinel
iff the remaining time is the "not busy" sentinel. -/
def Exclusive (Invalid_Job_Id : Int) (machine : UnrelatedMachine) : Prop :=
  machine.job_id_ = Invalid_Job_Id ↔ machine.remaining_time_ = Invalid_Remaining_Time

instance (Invalid_Job_Id : Int) (machine : UnrelatedMachine) :
    Decidable (Exclusive Invalid_Job_Id machine) :=
  inferInstanceAs (Decidable (_ ↔ _))

/-- The first job of the test data `unrelated_job1.json`, with id 0. -/
def job0 : UnrelatedJob := { id_ := 0, timestamp_ := 0, processing_time_ := [3, 2] }

/-- The second job of the test data `unrelated_job1.json`, with id 1. -/
def job1 : UnrelatedJob := { id_ := 1, timestamp_ := 1, processing_time_ := [5, 4] }

/-- Two free machines, with ids 0 and 1 (and `-1` as the "no job" id). -/
def twoFreeMachines : List UnrelatedMachine :=
  [UnrelatedMachine.withId (-1) 0, UnrelatedMachine.withId (-1) 1]

/-- Three free machines, with ids 0, 1 and 2 (and `-1` as the "no job" id). -/
def threeFreeMachines : List UnrelatedMachine :=
  [UnrelatedMachine.withId (-1) 0, UnrelatedMachine.withId (-1) 1,
   UnrelatedMachine.withId (-1) 2]

/-- Five jobs with ids 0 to 4 and one processing time for each of three
machines. -/
def fiveJobs : List UnrelatedJob :=
  [⟨0, 0, [4, 2, 7]⟩, ⟨1, 0, [1, 1, 1]⟩, ⟨2, 1, [6, 5, 3]⟩, ⟨3, 1, [2, 9, 2]⟩, ⟨4, 2, [8, 3, 5]⟩]

/-- A run of `updateMachineState` calls on the same scheduler and machine
vector, one call for each elapsed time of the list, in order, with no other
call in between. -/
def updateMachineStates (Invalid_Job_Id : Int) :
    GreedySchedulerUnrelatedRealTimeArrival × List UnrelatedMachine → List Int →
    GreedySchedulerUnrelatedRealTimeArrival × List UnrelatedMachine
  | state, [] => state
  | state, elapsed :: rest =>
    updateMachineStates Invalid_Job_Id
      (updateMachineState Invalid_Job_Id state.1 state.2 elapsed) rest

/-! ## The scan of one matching step -/

theorem scanMachines_num (job : UnrelatedJob) :
    ∀ (ms : List UnrelatedMachine) (i : Nat) (st r : ScanState),
      scanMachines job ms i st = some r →
      r.num_free_machine = st.num_free_machine + countFree ms := by
  intro ms
  induction ms with
  | nil =>
    intro i st r h
    simp [scanMachines] at h
    simp [countFree, ← h]
  | cons m rest ih =>
    intro i st r h
    unfold scanMachines at h
    by_cases hf : isFree m = true
    · rw [if_pos hf] at h
      cases hp : job.processing_time_[i]? with
      | none => simp [hp] at h
      | some e =>
        simp only [hp] at h
        have hc : countFree (m :: rest) = countFree rest + 1 := by
          simp [countFree, List.countP_cons, hf]
        split at h
        · have := ih _ _ _ h
          simp only at this
          omega
        · have := ih _ _ _ h
          simp only at this
          omega
    · rw [if_neg hf] at h
      have hc : countFree (m :: rest) = countFree rest := by
        simp [countFree, List.countP_cons, hf]
      rw [hc]
      exact ih _ _ _ h

theorem scanMachines_target (job : UnrelatedJob) :
    ∀ (ms : List UnrelatedMachine) (i : Nat) (st r : ScanState),
      scanMachines job ms i st = some r →
      (r.target_machine_id = st.target_machine_id ∧
        r.min_executing_time = st.min_executing_time ∧
        ∀ k m, ms[k]? = some m → isFree m = true →
          ∃ t, job.processing_time_[i + k]? = some t ∧ st.min_executing_time ≤ t) ∨
      (∃ k m t, ms[k]? = some m ∧ isFree m = true ∧
        job.processing_time_[i + k]? = some t ∧
        r.target_machine_id = ((i + k : Nat) : Int) ∧ r.min_executing_time = t ∧
        t < st.min_executing_time ∧
        ∀ k' m', ms[k']? = some m' → isFree m' = true →
          ∃ t', job.processing_time_[i + k']? = some t' ∧ t ≤ t' ∧ (k' < k → t < t')) := by
  intro ms
  induction ms with
  | nil =>
    intro i st r h
    simp [scanMachines] at h
    left
    simp [← h]
  | cons m rest ih =>
    intro i st r h
    unfold scanMachines at h
    by_cases hf : isFree m = true
    · rw [if_pos hf] at h
      cases hp : job.processing_time_[i]? with
      | none => simp [hp] at h
      | some e =>
        simp only [hp] at h
        split at h
        · rename_i hlt
          rcases ih _ _ _ h with ⟨h1, h2, h3⟩ | ⟨k, mk, t, h1, h2, h3, h4, h5, h6, h7⟩
          · simp only at h1 h2 h3
            right
            refine ⟨0, m, e, by simp, hf, by simpa using hp, by simpa using h1, h2, hlt, ?_⟩
            intro k' m' hk' hf'
            cases k' with
            | zero => exact ⟨e, by simpa using hp, le_refl _, by simp⟩
            | succ k'' =>
              simp only [List.getElem?_cons_succ] at hk'
              obtain ⟨t', ht', hle⟩ := h3 k'' m' hk' hf'
              exact ⟨t', by rw [← ht']; congr 1; omega, hle, by simp⟩
          · simp only at h6
            right
            refine ⟨k + 1, mk, t, by simpa using h1, h2, by rw [← h3]; congr 1; omega,
              by rw [h4]; congr 1; omega, h5, lt_trans h6 hlt, ?_⟩
            intro k' m' hk' hf'
            cases k' with
            | zero => exact ⟨e, by simpa using hp, le_of_lt h6, fun _ => h6⟩
            | succ k'' =>
              simp only [List.getElem?_cons_succ] at hk'
              obtain ⟨t', ht', hle, hlt'⟩ := h7 k'' m' hk' hf'
              exact ⟨t', by rw [← ht']; congr 1; omega, hle, fun hh => hlt' (by omega)⟩
        · rename_i hge
          rcases ih _ _ _ h with ⟨h1, h2, h3⟩ | ⟨k, mk, t, h1, h2, h3, h4, h5, h6, h7⟩
          · simp only at h1 h2 h3
            left
            refine ⟨h1, h2, ?_⟩
            intro k' m' hk' hf'
            cases k' with
            | zero => exact ⟨e, by simpa using hp, not_lt.mp hge⟩
            | succ k'' =>
              simp only [List.getElem?_cons_succ] at hk'
              obtain ⟨t', ht', hle⟩ := h3 k'' m' hk' hf'
              exact ⟨t', by rw [← ht']; congr 1; omega, hle⟩
          · simp only at h6
            right
            refine ⟨k + 1, mk, t, by simpa using h1, h2, by rw [← h3]; congr 1; omega,
              by rw [h4]; congr 1; omega, h5, h6, ?_⟩
            intro k' m' hk' hf'
            cases k' with
            | zero =>
              exact ⟨e, by simpa using hp, le_trans (le_of_lt h6) (not_lt.mp hge),
                fun _ => lt_of_lt_of_le h6 (not_lt.mp hge)⟩
            | succ k'' =>
              simp only [List.getElem?_cons_succ] at hk'
              obtain ⟨t', ht', hle, hlt'⟩ := h7 k'' m' hk' hf'
              exact ⟨t', by rw [← ht']; congr 1; omega, hle, fun hh => hlt' (by omega)⟩
    · rw [if_neg hf] at h
      rcases ih _ _ _ h with ⟨h1, h2, h3⟩ | ⟨k, mk, t, h1, h2, h3, h4, h5, h6, h7⟩
      · left
        refine ⟨h1, h2, ?_⟩
        intro k' m' hk' hf'
        cases k' with
        | zero =>
          simp only [List.getElem?_cons_zero, Option.some.injEq] at hk'
          subst hk'
          exact absurd hf' hf
        | succ k'' =>
          simp only [List.getElem?_cons_succ] at hk'
          obtain ⟨t', ht', hle⟩ := h3 k'' m' hk' hf'
          exact ⟨t', by rw [← ht']; congr 1; omega, hle⟩
      · right
        refine ⟨k + 1, mk, t, by simpa using h1, h2, by rw [← h3]; congr 1; omega,
          by rw [h4]; congr 1; omega, h5, h6, ?_⟩
        intro k' m' hk' hf'
        cases k' with
        | zero =>
          simp only [List.getElem?_cons_zero, Option.some.injEq] at hk'
          subst hk'
          exact absurd hf' hf
        | succ k'' =>
          simp only [List.getElem?_cons_succ] at hk'
          obtain ⟨t', ht', hle, hlt'⟩ := h7 k'' m' hk' hf'
          exact ⟨t', by rw [← ht']; congr 1; omega, hle, fun hh => hlt' (by omega)⟩

theorem scanMachines_selected (job : UnrelatedJob) (machines : List UnrelatedMachine)
    (st : ScanState) (h : scanMachines job machines 0 ScanState.init = some st)
    (ht : st.target_machine_id ≠ -1) :
    ∃ i : Nat, st.target_machine_id = (i : Int) ∧ Selected job machines i := by
  rcases scanMachines_target job machines 0 ScanState.init st h with
    ⟨h1, _, _⟩ | ⟨k, m, t, h1, h2, h3, h4, _, h6, h7⟩
  · exact absurd h1 ht
  · simp only [Nat.zero_add] at h3 h4 h7
    exact ⟨k, h4, m, t, h1, h2, h3, h6, h7⟩

theorem scanMachines_some (job : UnrelatedJob) :
    ∀ (ms : List UnrelatedMachine) (i : Nat) (st : ScanState),
      i + ms.length ≤ job.processing_time_.length →
      ∃ r, scanMachines job ms i st = some r := by
  intro ms
  induction ms with
  | nil => intro i st _; exact ⟨st, rfl⟩
  | cons m rest ih =>
    intro i st hlen
    simp only [List.length_cons] at hlen
    unfold scanMachines
    have hi : i < job.processing_time_.length := by omega
    rw [List.getElem?_eq_getElem hi]
    simp only
    split
    · split
      · exact ih _ _ (by omega)
      · exact ih _ _ (by omega)
    · exact ih _ _ (by omega)

theorem countFree_pos_iff (machines : List UnrelatedMachine) :
    countFree machines ≠ 0 ↔ ∃ (i : Nat) (m : UnrelatedMachine), machines[i]? = some m ∧ isFree m = true := by
  unfold countFree
  rw [Nat.ne_zero_iff_zero_lt, List.countP_pos_iff]
  constructor
  · rintro ⟨m, hm, hf⟩
    obtain ⟨i, hi⟩ := List.getElem?_of_mem hm
    exact ⟨i, m, hi, hf⟩
  · rintro ⟨i, m, hi, hf⟩
    exact ⟨m, List.getElem?_mem hi, hf⟩

/-- One iteration of the `while` loop, read backwards from its result. -/
theorem scheduleLoop_cons_inv (ts : Int) (job : UnrelatedJob) (rest : List UnrelatedJob)
    (machines : List UnrelatedMachine) (steps : List ScheduleStep)
    (R : List UnrelatedJob × List UnrelatedMachine × List ScheduleStep)
    (h : scheduleLoop ts (job :: rest) machines steps = some R) :
    (countFree machines = 0 ∧ R = (job :: rest, machines, steps)) ∨
    (∃ (i : Nat) (m m' : UnrelatedMachine), Selected job machines i ∧
      machines[i]? = some m ∧ isFree m = true ∧ execute m job = some m' ∧
      ((countFree machines = 1 ∧
          R = (rest, machines.set i m', steps ++ [⟨ts, job.id_, (i : Int)⟩])) ∨
       (2 ≤ countFree machines ∧
          scheduleLoop ts rest (machines.set i m') (steps ++ [⟨ts, job.id_, (i : Int)⟩])
            = some R))) := by
  unfold scheduleLoop at h
  cases hs : scanMachines job machines 0 ScanState.init with
  | none => simp [hs] at h
  | some st =>
    simp only [hs] at h
    have hnum := scanMachines_num job machines 0 ScanState.init st hs
    simp only [ScanState.init, Nat.zero_add] at hnum
    by_cases h0 : st.num_free_machine = 0
    · left
      simp only [h0, ne_eq, not_true_eq_false, if_false, Option.some.injEq] at h
      exact ⟨by omega, h.symm⟩
    · right
      rw [if_pos h0] at h
      unfold assignJob at h
      by_cases ha : st.target_machine_id ≠ -1 ∧ st.min_executing_time ≠ INT64_MAX
      · rw [if_pos ha] at h
        obtain ⟨i, hi, hsel⟩ := scanMachines_selected job machines st hs ha.1
        have hsel' := hsel
        obtain ⟨m, t, hm, hf, _, _, _⟩ := hsel'
        have hti : st.target_machine_id.toNat = i := by rw [hi]; simp
        rw [hti, hm] at h
        simp only at h
        cases he : execute m job with
        | none => simp [he] at h
        | some m' =>
          simp only [he] at h
          refine ⟨i, m, m', hsel, hm, hf, he, ?_⟩
          rw [hi] at h
          by_cases h1 : st.num_free_machine ≤ 1
          · left
            rw [if_pos h1] at h
            simp only [Option.some.injEq] at h
            exact ⟨by omega, h.symm⟩
          · right
            rw [if_neg h1] at h
            exact ⟨by omega, h⟩
      · rw [if_neg ha] at h
        simp at h

/-! ## `execute` and the effect of one assignment -/

theorem execute_eq_some (m m' : UnrelatedMachine) (job : UnrelatedJob)
    (h : execute m job = some m') :
    0 ≤ m.machineId_ ∧ ∃ t, job.processing_time_[m.machineId_.toNat]? = some t ∧
      m' = { m with job_id_ := job.id_, remaining_time_ := t } := by
  unfold execute at h
  by_cases hneg : m.machineId_ < 0
  · simp [hneg] at h
  · rw [if_neg hneg] at h
    cases hp : job.processing_time_[m.machineId_.toNat]? with
    | none => simp [hp] at h
    | some t =>
      simp only [hp, Option.some.injEq] at h
      exact ⟨not_lt.mp hneg, t, rfl, h.symm⟩

theorem execute_busy (m m' : UnrelatedMachine) (job : UnrelatedJob)
    (hpos : ∀ t ∈ job.processing_time_, 0 ≤ t) (h : execute m job = some m') :
    isFree m' = false := by
  obtain ⟨_, t, ht, rfl⟩ := execute_eq_some m m' job h
  have := hpos t (List.getElem?_mem ht)
  simp only [isFree, Invalid_Remaining_Time, decide_eq_false_iff_not]
  omega

theorem countFree_set (machines : List UnrelatedMachine) :
    ∀ (i : Nat) (m m' : UnrelatedMachine), machines[i]? = some m → isFree m = true →
      isFree m' = false → countFree (machines.set i m') + 1 = countFree machines := by
  induction machines with
  | nil => intro i m m' h; simp at h
  | cons a rest ih =>
    intro i m m' h hf hb
    cases i with
    | zero =>
      simp only [List.getElem?_cons_zero, Option.some.injEq] at h
      subst h
      simp [countFree, List.countP_cons, hf, hb]
    | succ k =>
      simp only [List.getElem?_cons_succ] at h
      have := ih k m m' h hf hb
      simp only [countFree] at this
      simp only [countFree, List.set_cons_succ, List.countP_cons]
      omega

theorem getElem?_lt_length {α : Type} (l : List α) (i : Nat) (a : α) (h : l[i]? = some a) :
    i < l.length := by
  by_contra hcon
  rw [List.getElem?_eq_none (by omega)] at h
  exact absurd h (by simp)

/-! ## The matching loop -/

/-- What the loop does to the pending jobs and to the list of steps, whatever
the processing times are. -/
theorem scheduleLoop_steps (ts : Int) :
    ∀ (stack : List UnrelatedJob) (machines : List UnrelatedMachine)
      (steps : List ScheduleStep)
      (R : List UnrelatedJob × List UnrelatedMachine × List ScheduleStep),
      scheduleLoop ts stack machines steps = some R →
      ∃ new : List ScheduleStep, R.2.2 = steps ++ new ∧ new.length ≤ stack.length ∧
        R.1 = stack.drop new.length ∧
        new.map ScheduleStep.job_id_ = (stack.take new.length).map UnrelatedJob.id_ ∧
        (∀ s ∈ new, s.timestamp_ = ts) ∧ R.2.1.length = machines.length := by
  intro stack
  induction stack with
  | nil =>
    intro machines steps R h
    simp only [scheduleLoop, Option.some.injEq] at h
    subst h
    exact ⟨[], by simp⟩
  | cons job rest ih =>
    intro machines steps R h
    rcases scheduleLoop_cons_inv ts job rest machines steps R h with
      ⟨_, rfl⟩ | ⟨i, m, m', _, _, _, _, ⟨_, rfl⟩ | ⟨_, hrec⟩⟩
    · exact ⟨[], by simp⟩
    · exact ⟨[⟨ts, job.id_, (i : Int)⟩], by simp⟩
    · obtain ⟨new, h1, h2, h3, h4, h5, h6⟩ := ih _ _ _ hrec
      refine ⟨⟨ts, job.id_, (i : Int)⟩ :: new, ?_, ?_, ?_, ?_, ?_, ?_⟩
      · rw [h1]; simp
      · simp only [List.length_cons]; omega
      · rw [h3]; simp
      · simp [h4]
      · intro s hs
        rcases List.mem_cons.mp hs with rfl | hs
        · rfl
        · exact h5 s hs
      · rw [h6]; simp

/-- What the loop does when no processing time is negative: it places jobs
until the pending jobs or the free machines run out, each on a machine that was
free when the loop started, no machine twice. -/
theorem scheduleLoop_placements (ts : Int) :
    ∀ (stack : List UnrelatedJob) (machines : List UnrelatedMachine)
      (steps : List ScheduleStep)
      (R : List UnrelatedJob × List UnrelatedMachine × List ScheduleStep),
      (∀ job ∈ stack, ∀ t ∈ job.processing_time_, 0 ≤ t) →
      scheduleLoop ts stack machines steps = some R →
      ∃ new : List ScheduleStep, R.2.2 = steps ++ new ∧
        R.1 = stack.drop new.length ∧
        new.length = min stack.length (countFree machines) ∧
        countFree R.2.1 + new.length = countFree machines ∧
        (∀ s ∈ new, ∃ (i : Nat) (m : UnrelatedMachine),
          s.machine_id_ = (i : Int) ∧ machines[i]? = some m ∧ isFree m = true) ∧
        (new.map ScheduleStep.machine_id_).Nodup ∧
        (∀ (n : Nat) (job : UnrelatedJob), stack[n]? = some job → n < new.length →
          ∃ (i : Nat) (m m' : UnrelatedMachine),
            new[n]? = some ⟨ts, job.id_, (i : Int)⟩ ∧ machines[i]? = some m ∧
            execute m job = some m' ∧ R.2.1[i]? = some m') ∧
        (∀ i : Nat, (i : Int) ∉ new.map ScheduleStep.machine_id_ →
          R.2.1[i]? = machines[i]?) := by
  intro stack
  induction stack with
  | nil =>
    intro machines steps R _ h
    simp only [scheduleLoop, Option.some.injEq] at h
    subst h
    exact ⟨[], by simp⟩
  | cons job rest ih =>
    intro machines steps R hpos h
    have hposJ : ∀ t ∈ job.processing_time_, 0 ≤ t := hpos job (List.mem_cons_self _ _)
    have hposR : ∀ j ∈ rest, ∀ t ∈ j.processing_time_, 0 ≤ t :=
      fun j hj => hpos j (List.mem_cons_of_mem _ hj)
    rcases scheduleLoop_cons_inv ts job rest machines steps R h with
      ⟨h0, rfl⟩ | ⟨i, m, m', _, hm, hf, he, hcase⟩
    · exact ⟨[], by simp [h0]⟩
    · have hb : isFree m' = false := execute_busy m m' job hposJ he
      have hcnt := countFree_set machines i m m' hm hf hb
      have hilt : i < machines.length := getElem?_lt_length machines i m hm
      have hset : (machines.set i m')[i]? = some m' := by
        rw [List.getElem?_set_self hilt]
      rcases hcase with ⟨h1, rfl⟩ | ⟨h2, hrec⟩
      · refine ⟨[⟨ts, job.id_, (i : Int)⟩], by simp, by simp, ?_, ?_, ?_, by simp, ?_, ?_⟩
        · simp only [List.length_cons, List.length_nil]; omega
        · simp only [List.length_cons, List.length_nil]; omega
        · intro s hs
          simp only [List.mem_singleton] at hs
          subst hs
          exact ⟨i, m, rfl, hm, hf⟩
        · intro n j hj hn
          simp only [List.length_cons, List.length_nil] at hn
          have hn0 : n = 0 := by omega
          subst hn0
          simp only [List.getElem?_cons_zero, Option.some.injEq] at hj
          subst hj
          exact ⟨i, m, m', by simp, hm, he, hset⟩
        · intro j hj
          simp only [List.map_cons, List.map_nil, List.mem_singleton] at hj
          have hne : i ≠ j := fun hij => hj (by rw [hij])
          simp only
          rw [List.getElem?_set_ne hne]
      · obtain ⟨new, c1, c2, c3, c4, c6, c7, c8, c9⟩ := ih _ _ _ hposR hrec
        have hnotin : (i : Int) ∉ new.map ScheduleStep.machine_id_ := by
          intro hin
          obtain ⟨s, hs, hsi⟩ := List.mem_map.mp hin
          obtain ⟨i', m1, hi', hm1, hf1⟩ := c6 s hs
          have hii : i' = i := by
            have : (i' : Int) = (i : Int) := by rw [← hi', hsi]
            exact_mod_cast this
          subst hii
          rw [hset] at hm1
          simp only [Option.some.injEq] at hm1
          subst hm1
          rw [hb] at hf1
          exact absurd hf1 (by simp)
        refine ⟨⟨ts, job.id_, (i : Int)⟩ :: new, ?_, ?_, ?_, ?_, ?_, ?_, ?_, ?_⟩
        · rw [c1]; simp
        · rw [c2]; simp
        · simp only [List.length_cons]; omega
        · simp only [List.length_cons]; omega
        · intro s hs
          rcases List.mem_cons.mp hs with rfl | hs
          · exact ⟨i, m, rfl, hm, hf⟩
          · obtain ⟨i', m1, hi', hm1, hf1⟩ := c6 s hs
            have hne : i ≠ i' := by
              intro hii
              subst hii
              rw [hset] at hm1
              simp only [Option.some.injEq] at hm1
              subst hm1
              rw [hb] at hf1
              exact absurd hf1 (by simp)
            rw [List.getElem?_set_ne hne] at hm1
            exact ⟨i', m1, hi', hm1, hf1⟩
        · simp only [List.map_cons, List.nodup_cons]
          exact ⟨hnotin, c7⟩
        · intro n j hj hn
          cases n with
          | zero =>
            simp only [List.getElem?_cons_zero, Option.some.injEq] at hj
            subst hj
            refine ⟨i, m, m', by simp, hm, he, ?_⟩
            rw [c9 i hnotin, hset]
          | succ k =>
            simp only [List.getElem?_cons_succ] at hj
            simp only [List.length_cons] at hn
            obtain ⟨i', m1, m1', hn', hm1, he1, hr1⟩ := c8 k j hj (by omega)
            have hne : i ≠ i' := by
              intro hii
              subst hii
              apply hnotin
              have hmem : (⟨ts, j.id_, (i : Int)⟩ : ScheduleStep) ∈ new :=
                List.getElem?_mem hn'
              exact List.mem_map.mpr ⟨_, hmem, rfl⟩
            rw [List.getElem?_set_ne hne] at hm1
            exact ⟨i', m1, m1', by simpa using hn', hm1, he1, hr1⟩
        · intro j hj
          simp only [List.map_cons, List.mem_cons, not_or] at hj
          have hne : i ≠ j := fun hij => hj.1 (by rw [hij])
          rw [c9 j hj.2, List.getElem?_set_ne hne]

/-- The matching loop returns whenever the caller invariants hold: one
processing time per machine, each below `INT64_MAX`, and machine ids equal to
the positions in the vector. -/
theorem scheduleLoop_some (ts : Int) :
    ∀ (stack : List UnrelatedJob) (machines : List UnrelatedMachine)
      (steps : List ScheduleStep),
      (∀ job ∈ stack, job.processing_time_.length = machines.length ∧
        ∀ t ∈ job.processing_time_, t < INT64_MAX) →
      (∀ (i : Nat) (m : UnrelatedMachine), machines[i]? = some m → m.machineId_ = (i : Int)) →
      ∃ R, scheduleLoop ts stack machines steps = some R := by
  intro stack
  induction stack with
  | nil => intro machines steps _ _; exact ⟨_, rfl⟩
  | cons job rest ih =>
    intro machines steps hwf hid
    obtain ⟨hlen, hmax⟩ := hwf job (List.mem_cons_self _ _)
    obtain ⟨st, hs⟩ := scanMachines_some job machines 0 ScanState.init (by omega)
    have hnum := scanMachines_num job machines 0 ScanState.init st hs
    simp only [ScanState.init, Nat.zero_add] at hnum
    unfold scheduleLoop
    simp only [hs]
    by_cases h0 : st.num_free_machine = 0
    · exact ⟨(job :: rest, machines, steps), by simp [h0]⟩
    · rw [if_pos h0]
      rcases scanMachines_target job machines 0 ScanState.init st hs with
        ⟨_, _, h3⟩ | ⟨k, m, t, h1, _, h3, h4, h5, h6, _⟩
      · exfalso
        obtain ⟨i, m, hm, hf⟩ := (countFree_pos_iff machines).mp (by omega)
        obtain ⟨t, ht, hle⟩ := h3 i m hm hf
        have := hmax t (List.getElem?_mem ht)
        simp only [ScanState.init] at hle
        omega
      · simp only [Nat.zero_add] at h3 h4
        simp only [ScanState.init] at h6
        have hassert : st.target_machine_id ≠ -1 ∧ st.min_executing_time ≠ INT64_MAX := by
          constructor
          · rw [h4]; omega
          · rw [h5]; omega
        have hti : st.target_machine_id.toNat = k := by rw [h4]; simp
        have hmid : m.machineId_ = (k : Int) := hid k m h1
        have hex : execute m job =
            some { m with job_id_ := job.id_, remaining_time_ := t } := by
          unfold execute
          have hnn : ¬ m.machineId_ < 0 := by rw [hmid]; omega
          rw [if_neg hnn]
          have : m.machineId_.toNat = k := by rw [hmid]; simp
          rw [this, h3]
        unfold assignJob
        rw [if_pos hassert, hti, h1]
        simp only [hex]
        by_cases hle : st.num_free_machine ≤ 1
        · rw [if_pos hle]; exact ⟨_, rfl⟩
        · rw [if_neg hle]
          apply ih
          · intro j hj
            have := hwf j (List.mem_cons_of_mem _ hj)
            simpa using this
          · intro i mi hmi
            by_cases hik : k = i
            · subst hik
              have hklt : k < machines.length := getElem?_lt_length machines k m h1
              rw [List.getElem?_set_self hklt] at hmi
              simp only [Option.some.injEq] at hmi
              subst hmi
              exact hmid
            · rw [List.getElem?_set_ne hik] at hmi
              exact hid i mi hmi

/-! ## The time advance -/

theorem updateLoop_flag (J e : Int) :
    ∀ (ms : List UnrelatedMachine) (d : Bool),
      (updateLoop J e ms d).2 = true ↔
        d = true ∧ ∀ m ∈ ms, m.remaining_time_ = Invalid_Remaining_Time := by
  intro ms
  induction ms with
  | nil => intro d; simp [updateLoop]
  | cons a rest ih =>
    intro d
    unfold updateLoop
    by_cases hb : a.remaining_time_ ≠ Invalid_Remaining_Time
    · rw [if_pos hb]
      simp only [ih, List.mem_cons, forall_eq_or_imp]
      constructor
      · intro h; exact absurd h.1 (by simp)
      · intro h; exact absurd h.2.1 hb
    · rw [if_neg hb]
      simp only [ih, List.mem_cons, forall_eq_or_imp]
      have hb' : a.remaining_time_ = Invalid_Remaining_Time := not_not.mp hb
      constructor
      · intro h; exact ⟨h.1, hb', h.2⟩
      · intro h; exact ⟨h.1, h.2.2⟩

theorem updateLoop_getElem (J e : Int) :
    ∀ (ms : List UnrelatedMachine) (d : Bool) (i : Nat) (m : UnrelatedMachine),
      ms[i]? = some m →
      (updateLoop J e ms d).1[i]? = some
        (if m.remaining_time_ ≠ Invalid_Remaining_Time then
          (if max 0 (m.remaining_time_ - e) = 0 then
            { m with job_id_ := J, remaining_time_ := Invalid_Remaining_Time }
          else { m with remaining_time_ := max 0 (m.remaining_time_ - e) })
        else m) := by
  intro ms
  induction ms with
  | nil => intro d i m h; simp at h
  | cons a rest ih =>
    intro d i m h
    unfold updateLoop
    cases i with
    | zero =>
      simp only [List.getElem?_cons_zero, Option.some.injEq] at h
      subst h
      by_cases hb : a.remaining_time_ ≠ Invalid_Remaining_Time
      · simp only [if_pos hb, List.getElem?_cons_zero, setFree]
      · simp only [if_neg hb, List.getElem?_cons_zero]
    | succ k =>
      simp only [List.getElem?_cons_succ] at h
      by_cases hb : a.remaining_time_ ≠ Invalid_Remaining_Time
      · simp only [if_pos hb, List.getElem?_cons_succ]
        exact ih false k m h
      · simp only [if_neg hb, List.getElem?_cons_succ]
        exact ih d k m h

theorem updateLoop_length (J e : Int) :
    ∀ (ms : List UnrelatedMachine) (d : Bool), (updateLoop J e ms d).1.length = ms.length := by
  intro ms
  induction ms with
  | nil => intro d; simp [updateLoop]
  | cons a rest ih =>
    intro d
    unfold updateLoop
    by_cases hb : a.remaining_time_ ≠ Invalid_Remaining_Time
    · simp only [if_pos hb, List.length_cons, ih]
    · simp only [if_neg hb, List.length_cons, ih]

theorem aligned_getElem? (machines : List UnrelatedMachine)
    (hid : ∀ (i : Nat) (h : i < machines.length), machines[i].machineId_ = (i : Int)) :
    ∀ (i : Nat) (m : UnrelatedMachine), machines[i]? = some m → m.machineId_ = (i : Int) := by
  intro i m h
  obtain ⟨hi, rfl⟩ := List.getElem?_eq_some.mp h
  exact hid i hi

theorem exists_free_iff (machines : List UnrelatedMachine) :
    (∃ m ∈ machines, isFree m = true) ↔ countFree machines ≠ 0 := by
  unfold countFree
  rw [Nat.ne_zero_iff_zero_lt, List.countP_pos_iff]

theorem countFree_eq_zero (machines : List UnrelatedMachine) (h : countFree machines = 0) :
    ∀ m ∈ machines, isFree m = false := by
  intro m hm
  by_contra hcon
  have : countFree machines ≠ 0 :=
    (exists_free_iff machines).mp ⟨m, hm, by simpa using hcon⟩
  exact this h

theorem scanMachines_of_free (job : UnrelatedJob) (machines : List UnrelatedMachine)
    (hlen : machines.length ≤ job.processing_time_.length)
    (hmax : ∀ t ∈ job.processing_time_, t < INT64_MAX)
    (hfree : countFree machines ≠ 0) :
    ∃ (st : ScanState) (i : Nat), scanMachines job machines 0 ScanState.init = some st ∧
      st.num_free_machine = countFree machines ∧ st.target_machine_id = (i : Int) ∧
      job.processing_time_[i]? = some st.min_executing_time ∧
      st.min_executing_time < INT64_MAX ∧ Selected job machines i := by
  obtain ⟨st, hs⟩ := scanMachines_some job machines 0 ScanState.init (by omega)
  have hnum := scanMachines_num job machines 0 ScanState.init st hs
  simp only [ScanState.init, Nat.zero_add] at hnum
  rcases scanMachines_target job machines 0 ScanState.init st hs with
    ⟨_, _, h3⟩ | ⟨k, m, t, h1, h2, h3, h4, h5, h6, h7⟩
  · exfalso
    obtain ⟨i, m, hm, hf⟩ := (countFree_pos_iff machines).mp hfree
    obtain ⟨t, ht, hle⟩ := h3 i m hm hf
    have := hmax t (List.getElem?_mem ht)
    simp only [ScanState.init] at hle
    omega
  · simp only [Nat.zero_add] at h3 h4 h7
    simp only [ScanState.init] at h6
    exact ⟨st, k, hs, hnum, h4, by rw [h5]; exact h3, by rw [h5]; exact h6,
      m, t, h1, h2, h3, h6, h7⟩

theorem assignJob_eq (ts : Int) (job : UnrelatedJob) (machines : List UnrelatedMachine)
    (st : ScanState) (i : Nat) (m : UnrelatedMachine)
    (hi : st.target_machine_id = (i : Int)) (hmin : st.min_executing_time < INT64_MAX)
    (hm : machines[i]? = some m) :
    assignJob ts job machines st =
      (execute m job).map fun m' =>
        (machines.set i m', (⟨ts, job.id_, (i : Int)⟩ : ScheduleStep)) := by
  unfold assignJob
  have hassert : st.target_machine_id ≠ -1 ∧ st.min_executing_time ≠ INT64_MAX := by
    constructor
    · rw [hi]; omega
    · omega
  have hti : st.target_machine_id.toNat = i := by rw [hi]; simp
  rw [if_pos hassert, hti, hm, hi]
  simp only
  cases he : execute m job <;> simp

/-! ## From the loop to `schedule` -/

theorem schedule_eq_some (self : GreedySchedulerUnrelatedRealTimeArrival)
    (new_jobs : List UnrelatedJob) (machines : List UnrelatedMachine) (now : Int)
    (r : ScheduleResult) (h : schedule self new_jobs machines now = some r) :
    scheduleLoop now (self.accumulated_jobs_ ++ new_jobs).reverse machines [] =
        some (r.scheduler.accumulated_jobs_.reverse, r.machines, r.steps) ∧
      r.scheduler.is_done_ = self.is_done_ := by
  unfold schedule at h
  cases hl : scheduleLoop now (self.accumulated_jobs_ ++ new_jobs).reverse machines [] with
  | none => rw [hl] at h; simp at h
  | some R =>
    obtain ⟨pending, machines', steps⟩ := R
    rw [hl] at h
    simp only [Option.some.injEq] at h
    subst h
    simp

theorem schedule_some (self : GreedySchedulerUnrelatedRealTimeArrival)
    (new_jobs : List UnrelatedJob) (machines : List UnrelatedMachine) (now : Int)
    (hwf : ∀ job ∈ self.accumulated_jobs_ ++ new_jobs,
      job.processing_time_.length = machines.length ∧
      ∀ t ∈ job.processing_time_, t < INT64_MAX)
    (hid : ∀ (i : Nat) (h : i < machines.length), machines[i].machineId_ = (i : Int)) :
    ∃ r, schedule self new_jobs machines now = some r := by
  obtain ⟨R, hR⟩ := scheduleLoop_some now (self.accumulated_jobs_ ++ new_jobs).reverse
    machines [] (fun job hj => hwf job (List.mem_reverse.mp hj))
    (aligned_getElem? machines hid)
  obtain ⟨pending, machines', steps⟩ := R
  unfold schedule
  rw [hR]
  exact ⟨_, rfl⟩

/-! ## The claims -/

/-- C1. In a matching step of `schedule` that finds a free machine, when the
current job has one processing time per machine and each is below `INT64_MAX`,
the scan ends with `target_machine_id = i` where machine `i` is free, the job's
processing time on `i` is the minimum over the free machines, and `i` is the
lowest index among the free machines with that minimum; the assignment executes
the job on machine `i`, and the step the loop emits for the job names `i`. -/
theorem C1_greedy_selection (ts : Int) (job : UnrelatedJob)
    (machines : List UnrelatedMachine)
    (hlen : job.processing_time_.length = machines.length)
    (hmax : ∀ t ∈ job.processing_time_, t < INT64_MAX)
    (hfree : ∃ m ∈ machines, isFree m = true) :
    ∃ (st : ScanState) (i : Nat) (m : UnrelatedMachine) (t : Int),
      scanMachines job machines 0 ScanState.init = some st ∧
      st.num_free_machine ≠ 0 ∧
      st.target_machine_id = (i : Int) ∧ st.min_executing_time = t ∧
      machines[i]? = some m ∧ isFree m = true ∧ job.processing_time_[i]? = some t ∧
      (∀ (j : Nat) (mj : UnrelatedMachine) (tj : Int), machines[j]? = some mj →
        isFree mj = true → job.processing_time_[j]? = some tj →
        t ≤ tj ∧ (tj = t → i ≤ j)) ∧
      assignJob ts job machines st =
        (execute m job).map (fun m' =>
          (machines.set i m', (⟨ts, job.id_, (i : Int)⟩ : ScheduleStep))) ∧
      (∀ (rest : List UnrelatedJob) (steps : List ScheduleStep)
        (R : List UnrelatedJob × List UnrelatedMachine × List ScheduleStep),
        scheduleLoop ts (job :: rest) machines steps = some R →
        ∃ new : List ScheduleStep, R.2.2 = steps ++ ⟨ts, job.id_, (i : Int)⟩ :: new) := by
  have hcf : countFree machines ≠ 0 := (exists_free_iff machines).mp hfree
  obtain ⟨st, i, hs, hnum, hi, hpt, hlt, m, t, hm, hf, hpt', _, hall⟩ :=
    scanMachines_of_free job machines (by omega) hmax hcf
  have htt : st.min_executing_time = t := by
    rw [hpt'] at hpt
    simpa using hpt.symm
  have hassign := assignJob_eq ts job machines st i m hi hlt hm
  refine ⟨st, i, m, t, hs, by omega, hi, htt, hm, hf, hpt', ?_, hassign, ?_⟩
  · intro j mj tj hmj hfj hptj
    obtain ⟨t', ht', hle, hlt'⟩ := hall j mj hmj hfj
    rw [hptj] at ht'
    simp only [Option.some.injEq] at ht'
    subst ht'
    refine ⟨hle, ?_⟩
    intro heq
    by_contra hcon
    have := hlt' (by omega)
    omega
  · intro rest steps R h
    unfold scheduleLoop at h
    simp only [hs] at h
    rw [if_pos (by omega), hassign] at h
    cases he : execute m job with
    | none => simp [he] at h
    | some m' =>
      simp only [he, Option.map_some'] at h
      by_cases h1 : st.num_free_machine ≤ 1
      · rw [if_pos h1] at h
        simp only [Option.some.injEq] at h
        subst h
        exact ⟨[], rfl⟩
      · rw [if_neg h1] at h
        obtain ⟨new, hnew, _⟩ := scheduleLoop_steps ts rest _ _ R h
        exact ⟨new, by rw [hnew]; simp⟩

/-- Witness of C1: job 0 of the test data (times 3 and 2) on two free machines. -/
theorem C1_greedy_selection_witness :
    ∃ (st : ScanState) (i : Nat) (m : UnrelatedMachine) (t : Int),
      scanMachines job0 twoFreeMachines 0 ScanState.init = some st ∧
      st.num_free_machine ≠ 0 ∧
      st.target_machine_id = (i : Int) ∧ st.min_executing_time = t ∧
      twoFreeMachines[i]? = some m ∧ isFree m = true ∧
      job0.processing_time_[i]? = some t ∧
      (∀ (j : Nat) (mj : UnrelatedMachine) (tj : Int), twoFreeMachines[j]? = some mj →
        isFree mj = true → job0.processing_time_[j]? = some tj →
        t ≤ tj ∧ (tj = t → i ≤ j)) ∧
      assignJob 0 job0 twoFreeMachines st =
        (execute m job0).map (fun m' =>
          (twoFreeMachines.set i m', (⟨0, job0.id_, (i : Int)⟩ : ScheduleStep))) ∧
      (∀ (rest : List UnrelatedJob) (steps : List ScheduleStep)
        (R : List UnrelatedJob × List UnrelatedMachine × List ScheduleStep),
        scheduleLoop 0 (job0 :: rest) twoFreeMachines steps = some R →
        ∃ new : List ScheduleStep, R.2.2 = steps ++ ⟨0, job0.id_, (i : Int)⟩ :: new) :=
  C1_greedy_selection 0 job0 twoFreeMachines (by decide) (by decide) (by decide)

/-- C2. Let `P` be the accumulated jobs followed by `new_jobs`. Whenever
`schedule` returns, it returns `k ≤ |P|` steps whose job ids are those of the
last `k` jobs of `P` read from the back, and the accumulated jobs afterwards are
`P` without its last `k` jobs, so `P` is the pending jobs followed by the placed
ones. Under the caller invariants (one processing time per machine, each below
`INT64_MAX`, machine ids equal to positions) `schedule` does return. -/
theorem C2_stack_discipline (self : GreedySchedulerUnrelatedRealTimeArrival)
    (new_jobs : List UnrelatedJob) (machines : List UnrelatedMachine) (now : Int) :
    (∀ r, schedule self new_jobs machines now = some r →
      ∃ k : Nat, k ≤ (self.accumulated_jobs_ ++ new_jobs).length ∧
        r.steps.length = k ∧
        r.steps.map ScheduleStep.job_id_ =
          ((self.accumulated_jobs_ ++ new_jobs).reverse.take k).map UnrelatedJob.id_ ∧
        r.scheduler.accumulated_jobs_ =
          (self.accumulated_jobs_ ++ new_jobs).take
            ((self.accumulated_jobs_ ++ new_jobs).length - k) ∧
        self.accumulated_jobs_ ++ new_jobs =
          r.scheduler.accumulated_jobs_ ++
            ((self.accumulated_jobs_ ++ new_jobs).reverse.take k).reverse) ∧
    ((∀ job ∈ self.accumulated_jobs_ ++ new_jobs,
        job.processing_time_.length = machines.length ∧
        ∀ t ∈ job.processing_time_, t < INT64_MAX) →
      (∀ (i : Nat) (h : i < machines.length), machines[i].machineId_ = (i : Int)) →
      ∃ r, schedule self new_jobs machines now = some r) := by
  refine ⟨?_, fun hwf hid => schedule_some self new_jobs machines now hwf hid⟩
  intro r h
  obtain ⟨hl, _⟩ := schedule_eq_some self new_jobs machines now r h
  obtain ⟨new, h1, h2, h3, h4, _, _⟩ := scheduleLoop_steps now _ machines [] _ hl
  simp only [List.nil_append] at h1
  simp only [List.length_reverse] at h2
  have hacc : r.scheduler.accumulated_jobs_ =
      (self.accumulated_jobs_ ++ new_jobs).take
        ((self.accumulated_jobs_ ++ new_jobs).length - new.length) := by
    have := congrArg List.reverse h3
    simp only [List.reverse_reverse] at this
    rw [this, List.reverse_drop, List.reverse_reverse, List.length_reverse]
  refine ⟨new.length, h2, by rw [h1], by rw [h1]; exact h4, hacc, ?_⟩
  rw [hacc, List.reverse_take, List.reverse_reverse, List.length_reverse]
  exact (List.take_append_drop _ _).symm

/-- Witness of C2: the first call of the test scenario places job 0. -/
theorem C2_stack_discipline_witness :
    (∃ k : Nat, k ≤ ([] ++ [job0]).length ∧
      [(⟨0, 0, 1⟩ : ScheduleStep)].length = k ∧
      [(⟨0, 0, 1⟩ : ScheduleStep)].map ScheduleStep.job_id_ =
        (([] ++ [job0]).reverse.take k).map UnrelatedJob.id_ ∧
      ([] : List UnrelatedJob) = ([] ++ [job0]).take (([] ++ [job0]).length - k) ∧
      [] ++ [job0] = [] ++ (([] ++ [job0]).reverse.take k).reverse) ∧
    ∃ r, schedule GreedySchedulerUnrelatedRealTimeArrival.fresh [job0] twoFreeMachines 0
      = some r :=
  ⟨(C2_stack_discipline GreedySchedulerUnrelatedRealTimeArrival.fresh [job0]
      twoFreeMachines 0).1
      ⟨⟨[], false⟩, [⟨0, -1, -1⟩, ⟨1, 0, 2⟩], [⟨0, 0, 1⟩]⟩ (by decide),
   (C2_stack_discipline GreedySchedulerUnrelatedRealTimeArrival.fresh [job0]
      twoFreeMachines 0).2 (by decide) (by decide)⟩

/-- C3. Under the caller invariants (machine ids equal to positions, one
processing time per machine, each non-negative and below `INT64_MAX`)
`schedule` returns, and its `n`-th step carries the timestamp `now`, the id of
the `n`-th job from the back of the pending jobs and a machine index `m`; after
the call the machine at index `m` holds that job id and, as remaining time, that
job's processing time on `m`. -/
theorem C3_step_effect (self : GreedySchedulerUnrelatedRealTimeArrival)
    (new_jobs : List UnrelatedJob) (machines : List UnrelatedMachine) (now : Int)
    (hid : ∀ (i : Nat) (h : i < machines.length), machines[i].machineId_ = (i : Int))
    (hlen : ∀ job ∈ self.accumulated_jobs_ ++ new_jobs,
      job.processing_time_.length = machines.length)
    (hrange : ∀ job ∈ self.accumulated_jobs_ ++ new_jobs,
      ∀ t ∈ job.processing_time_, 0 ≤ t ∧ t < INT64_MAX) :
    ∃ r, schedule self new_jobs machines now = some r ∧
      ∀ (n : Nat) (s : ScheduleStep), r.steps[n]? = some s →
        s.timestamp_ = now ∧
        ∃ (job : UnrelatedJob) (m : Nat) (mc : UnrelatedMachine),
          (self.accumulated_jobs_ ++ new_jobs).reverse[n]? = some job ∧
          s.job_id_ = job.id_ ∧ s.machine_id_ = (m : Int) ∧
          r.machines[m]? = some mc ∧ mc.job_id_ = job.id_ ∧
          job.processing_time_[m]? = some mc.remaining_time_ := by
  obtain ⟨r, hr⟩ := schedule_some self new_jobs machines now
    (fun job hj => ⟨hlen job hj, fun t ht => (hrange job hj t ht).2⟩) hid
  refine ⟨r, hr, ?_⟩
  obtain ⟨hl, _⟩ := schedule_eq_some self new_jobs machines now r hr
  obtain ⟨new, c1, _, c3, _, _, _, c8, _⟩ :=
    scheduleLoop_placements now _ machines [] _
      (fun job hj t ht => (hrange job (List.mem_reverse.mp hj) t ht).1) hl
  simp only [List.nil_append] at c1
  intro n s hs
  rw [c1] at hs
  have hn : n < new.length := getElem?_lt_length new n s hs
  have hn' : n < (self.accumulated_jobs_ ++ new_jobs).reverse.length := by
    have := Nat.min_le_left (self.accumulated_jobs_ ++ new_jobs).reverse.length
      (countFree machines)
    omega
  obtain ⟨i, m, m', hnew, hm, he, hr'⟩ :=
    c8 n _ (List.getElem?_eq_getElem hn') hn
  rw [hs] at hnew
  simp only [Option.some.injEq] at hnew
  subst hnew
  obtain ⟨_, t, ht, hm'⟩ := execute_eq_some m m' _ he
  have hmid : m.machineId_ = (i : Int) := aligned_getElem? machines hid i m hm
  have hti : m.machineId_.toNat = i := by rw [hmid]; simp
  rw [hti] at ht
  refine ⟨rfl, _, i, m', List.getElem?_eq_getElem hn', rfl, rfl, hr', ?_, ?_⟩
  · rw [hm']
  · rw [hm']; exact ht

/-- Witness of C3: the first call of the test scenario. -/
theorem C3_step_effect_witness :
    ∃ r, schedule GreedySchedulerUnrelatedRealTimeArrival.fresh [job0] twoFreeMachines 0
        = some r ∧
      ∀ (n : Nat) (s : ScheduleStep), r.steps[n]? = some s →
        s.timestamp_ = 0 ∧
        ∃ (job : UnrelatedJob) (m : Nat) (mc : UnrelatedMachine),
          (GreedySchedulerUnrelatedRealTimeArrival.fresh.accumulated_jobs_ ++
            [job0]).reverse[n]? = some job ∧
          s.job_id_ = job.id_ ∧ s.machine_id_ = (m : Int) ∧
          r.machines[m]? = some mc ∧ mc.job_id_ = job.id_ ∧
          job.processing_time_[m]? = some mc.remaining_time_ :=
  C3_step_effect GreedySchedulerUnrelatedRealTimeArrival.fresh [job0] twoFreeMachines 0
    (by decide) (by decide) (by decide)

/-- C4. Right after `updateMachineState`, `done()` is true iff the accumulated
jobs are empty and every machine had the "not busy" remaining time when the
call started; so a machine busy at the start, also one that finishes during the
call, makes `done()` false. -/
theorem C4_done_iff (Invalid_Job_Id : Int) (self : GreedySchedulerUnrelatedRealTimeArrival)
    (machines : List UnrelatedMachine) (elapsed : Int) :
    (done (updateMachineState Invalid_Job_Id self machines elapsed).1 = true ↔
      self.accumulated_jobs_ = [] ∧
        ∀ m ∈ machines, m.remaining_time_ = Invalid_Remaining_Time) ∧
    ((∃ m ∈ machines, m.remaining_time_ ≠ Invalid_Remaining_Time) →
      done (updateMachineState Invalid_Job_Id self machines elapsed).1 = false) := by
  have hiff : done (updateMachineState Invalid_Job_Id self machines elapsed).1 = true ↔
      self.accumulated_jobs_ = [] ∧
        ∀ m ∈ machines, m.remaining_time_ = Invalid_Remaining_Time := by
    simp only [done, updateMachineState, updateLoop_flag, List.isEmpty_iff]
  refine ⟨hiff, ?_⟩
  rintro ⟨m, hm, hb⟩
  cases hd : done (updateMachineState Invalid_Job_Id self machines elapsed).1 with
  | false => rfl
  | true => exact absurd ((hiff.mp hd).2 m hm) hb

/-- Witness of C4: a single machine with remaining time 2, advanced by 2, is
freed by the call and `done()` is false after it. -/
theorem C4_done_iff_witness :
    (done (updateMachineState (-1) ⟨[], false⟩ [⟨0, 7, 2⟩] 2).1 = true ↔
      (⟨[], false⟩ : GreedySchedulerUnrelatedRealTimeArrival).accumulated_jobs_ = [] ∧
        ∀ m ∈ [(⟨0, 7, 2⟩ : UnrelatedMachine)],
          m.remaining_time_ = Invalid_Remaining_Time) ∧
    done (updateMachineState (-1) ⟨[], false⟩ [⟨0, 7, 2⟩] 2).1 = false :=
  ⟨(C4_done_iff (-1) ⟨[], false⟩ [⟨0, 7, 2⟩] 2).1,
   (C4_done_iff (-1) ⟨[], false⟩ [⟨0, 7, 2⟩] 2).2 (by decide)⟩

/-- C5. For `elapsed ≥ 0`, `updateMachineState` keeps the number of machines and
acts on each position by itself: a machine busy at the start with remaining time
`r ≥ 0` ends with remaining time `r - elapsed` and the same job id when
`r - elapsed > 0`, and otherwise ends with both the job id and the remaining
time reset to their sentinels; a machine free at the start is unchanged. The
machine id never changes. -/
theorem C5_advance_pointwise (Invalid_Job_Id : Int)
    (self : GreedySchedulerUnrelatedRealTimeArrival)
    (machines : List UnrelatedMachine) (elapsed : Int) (he : 0 ≤ elapsed) :
    (updateMachineState Invalid_Job_Id self machines elapsed).2.length = machines.length ∧
    ∀ (i : Nat) (m : UnrelatedMachine), machines[i]? = some m →
      (m.remaining_time_ ≠ Invalid_Remaining_Time → 0 ≤ m.remaining_time_ →
        0 < m.remaining_time_ - elapsed →
        (updateMachineState Invalid_Job_Id self machines elapsed).2[i]? =
          some { m with remaining_time_ := m.remaining_time_ - elapsed }) ∧
      (m.remaining_time_ ≠ Invalid_Remaining_Time → 0 ≤ m.remaining_time_ →
        m.remaining_time_ - elapsed ≤ 0 →
        (updateMachineState Invalid_Job_Id self machines elapsed).2[i]? =
          some { m with job_id_ := Invalid_Job_Id,
                        remaining_time_ := Invalid_Remaining_Time }) ∧
      (m.remaining_time_ = Invalid_Remaining_Time →
        (updateMachineState Invalid_Job_Id self machines elapsed).2[i]? = some m) := by
  have _ := he
  refine ⟨updateLoop_length _ _ _ _, ?_⟩
  intro i m hm
  have hget := updateLoop_getElem Invalid_Job_Id elapsed machines
    self.accumulated_jobs_.isEmpty i m hm
  simp only [updateMachineState]
  refine ⟨?_, ?_, ?_⟩
  · intro hb _ hpos
    rw [hget, if_pos hb]
    have hmax : max 0 (m.remaining_time_ - elapsed) = m.remaining_time_ - elapsed :=
      max_eq_right (le_of_lt hpos)
    rw [hmax, if_neg (by omega)]
  · intro hb _ hle
    rw [hget, if_pos hb]
    have hmax : max 0 (m.remaining_time_ - elapsed) = 0 := max_eq_left hle
    rw [hmax, if_pos rfl]
  · intro hfree
    rw [hget, if_neg (by simpa using hfree)]

/-- Witness of C5: three machines (remaining times 5, 2 and free) advanced by 2. -/
theorem C5_advance_pointwise_witness :
    (updateMachineState (-1) ⟨[], false⟩ [⟨0, 4, 5⟩, ⟨1, 6, 2⟩, ⟨2, -1, -1⟩] 2).2
      = [⟨0, 4, 3⟩, ⟨1, -1, -1⟩, ⟨2, -1, -1⟩] ∧
    (updateMachineState (-1) ⟨[], false⟩ [⟨0, 4, 5⟩, ⟨1, 6, 2⟩, ⟨2, -1, -1⟩] 2).2[0]? =
      some { (⟨0, 4, 5⟩ : UnrelatedMachine) with remaining_time_ := 5 - 2 } :=
  ⟨by decide,
   ((C5_advance_pointwise (-1) ⟨[], false⟩ [⟨0, 4, 5⟩, ⟨1, 6, 2⟩, ⟨2, -1, -1⟩] 2
      (by decide)).2 0 ⟨0, 4, 5⟩ (by decide)).1 (by decide) (by decide) (by decide)⟩

/-- C6. When no pending job has a negative processing time, every step returned
by one call of `schedule` names a machine that was free when the call started,
and no two steps of the call name the same machine: `execute` is never applied
to a busy machine. -/
theorem C6_execute_on_free_only (self : GreedySchedulerUnrelatedRealTimeArrival)
    (new_jobs : List UnrelatedJob) (machines : List UnrelatedMachine) (now : Int)
    (r : ScheduleResult)
    (hpos : ∀ job ∈ self.accumulated_jobs_ ++ new_jobs,
      ∀ t ∈ job.processing_time_, 0 ≤ t)
    (h : schedule self new_jobs machines now = some r) :
    (∀ s ∈ r.steps, ∃ (i : Nat) (m : UnrelatedMachine),
      s.machine_id_ = (i : Int) ∧ machines[i]? = some m ∧ isFree m = true) ∧
    (r.steps.map ScheduleStep.machine_id_).Nodup := by
  obtain ⟨hl, _⟩ := schedule_eq_some self new_jobs machines now r h
  obtain ⟨new, c1, _, _, _, c6, c7, _, _⟩ :=
    scheduleLoop_placements now _ machines [] _
      (fun job hj t ht => hpos job (List.mem_reverse.mp hj) t ht) hl
  simp only [List.nil_append] at c1
  rw [c1]
  exact ⟨c6, c7⟩

/-- Witness of C6: five pending jobs and three free machines. -/
theorem C6_execute_on_free_only_witness :
    (∀ s ∈ [(⟨7, 4, 1⟩ : ScheduleStep), ⟨7, 3, 0⟩, ⟨7, 2, 2⟩],
      ∃ (i : Nat) (m : UnrelatedMachine),
        s.machine_id_ = (i : Int) ∧ threeFreeMachines[i]? = some m ∧ isFree m = true) ∧
    ([(⟨7, 4, 1⟩ : ScheduleStep), ⟨7, 3, 0⟩, ⟨7, 2, 2⟩].map
      ScheduleStep.machine_id_).Nodup :=
  C6_execute_on_free_only GreedySchedulerUnrelatedRealTimeArrival.fresh fiveJobs
    threeFreeMachines 7
    ⟨⟨[⟨0, 0, [4, 2, 7]⟩, ⟨1, 0, [1, 1, 1]⟩], false⟩,
      [⟨0, 3, 2⟩, ⟨1, 4, 3⟩, ⟨2, 2, 3⟩],
      [⟨7, 4, 1⟩, ⟨7, 3, 0⟩, ⟨7, 2, 2⟩]⟩
    (by decide) (by decide)

theorem exclusive_set (J : Int) (machines : List UnrelatedMachine) (i : Nat)
    (m' : UnrelatedMachine) (hall : ∀ m ∈ machines, Exclusive J m) (hm' : Exclusive J m') :
    ∀ m ∈ machines.set i m', Exclusive J m := by
  intro m hm
  rcases List.mem_or_eq_of_mem_set hm with h | h
  · exact hall m h
  · rw [h]; exact hm'

theorem scheduleLoop_exclusive (J : Int) (hJ : J < 0) (ts : Int) :
    ∀ (stack : List UnrelatedJob) (machines : List UnrelatedMachine)
      (steps : List ScheduleStep)
      (R : List UnrelatedJob × List UnrelatedMachine × List ScheduleStep),
      (∀ job ∈ stack, 0 ≤ job.id_ ∧ ∀ t ∈ job.processing_time_, 0 ≤ t) →
      (∀ m ∈ machines, Exclusive J m) →
      scheduleLoop ts stack machines steps = some R →
      ∀ m ∈ R.2.1, Exclusive J m := by
  intro stack
  induction stack with
  | nil =>
    intro machines steps R _ hall h
    simp only [scheduleLoop, Option.some.injEq] at h
    subst h
    exact hall
  | cons job rest ih =>
    intro machines steps R hjobs hall h
    obtain ⟨hjid, hjpos⟩ := hjobs job (List.mem_cons_self _ _)
    rcases scheduleLoop_cons_inv ts job rest machines steps R h with
      ⟨_, rfl⟩ | ⟨i, m, m', _, _, _, he, hcase⟩
    · exact hall
    · have hm' : Exclusive J m' := by
        obtain ⟨_, t, ht, rfl⟩ := execute_eq_some m m' job he
        have := hjpos t (List.getElem?_mem ht)
        simp only [Exclusive, Invalid_Remaining_Time]
        constructor <;> intro hh <;> omega
      have hset := exclusive_set J machines i m' hall hm'
      rcases hcase with ⟨_, rfl⟩ | ⟨_, hrec⟩
      · exact hset
      · exact ih _ _ _ (fun j hj => hjobs j (List.mem_cons_of_mem _ hj)) hset hrec

theorem updateLoop_exclusive (J e : Int) :
    ∀ (ms : List UnrelatedMachine) (d : Bool), (∀ m ∈ ms, Exclusive J m) →
      ∀ m ∈ (updateLoop J e ms d).1, Exclusive J m := by
  intro ms
  induction ms with
  | nil => intro d _ m hm; simp [updateLoop] at hm
  | cons a rest ih =>
    intro d hall m hm
    have ha : Exclusive J a := hall a (List.mem_cons_self _ _)
    have hrest : ∀ x ∈ rest, Exclusive J x := fun x hx => hall x (List.mem_cons_of_mem _ hx)
    unfold updateLoop at hm
    by_cases hb : a.remaining_time_ ≠ Invalid_Remaining_Time
    · simp only [if_pos hb, List.mem_cons] at hm
      rcases hm with rfl | hm
      · by_cases h0 : max 0 (a.remaining_time_ - e) = 0
        · simp only [h0, if_true, setFree, Exclusive]
        · have hge : 0 ≤ max 0 (a.remaining_time_ - e) := le_max_left _ _
          simp only [if_neg h0, Exclusive, Invalid_Remaining_Time]
          constructor
          · intro hh; exact absurd (ha.mp hh) hb
          · intro hh; omega
      · exact ih false hrest m hm
    · simp only [if_neg hb, List.mem_cons] at hm
      rcases hm with rfl | hm
      · exact ha
      · exact ih d hrest m hm

/-- C7. Free/busy exclusivity (job id is the "no job" sentinel iff remaining
time is the "not busy" sentinel) is preserved by `schedule`, when job ids and
processing times are non-negative and the "no job" sentinel is negative, and by
`updateMachineState`; it holds for a machine built by either constructor and
after `setFree`. -/
theorem C7_exclusivity_invariant (Invalid_Job_Id : Int) (hsentinel : Invalid_Job_Id < 0) :
    (∀ (self : GreedySchedulerUnrelatedRealTimeArrival) (new_jobs : List UnrelatedJob)
      (machines : List UnrelatedMachine) (now : Int) (r : ScheduleResult),
      (∀ job ∈ self.accumulated_jobs_ ++ new_jobs,
        0 ≤ job.id_ ∧ ∀ t ∈ job.processing_time_, 0 ≤ t) →
      (∀ m ∈ machines, Exclusive Invalid_Job_Id m) →
      schedule self new_jobs machines now = some r →
      ∀ m ∈ r.machines, Exclusive Invalid_Job_Id m) ∧
    (∀ (self : GreedySchedulerUnrelatedRealTimeArrival) (machines : List UnrelatedMachine)
      (elapsed : Int),
      (∀ m ∈ machines, Exclusive Invalid_Job_Id m) →
      ∀ m ∈ (updateMachineState Invalid_Job_Id self machines elapsed).2,
        Exclusive Invalid_Job_Id m) ∧
    Exclusive Invalid_Job_Id (UnrelatedMachine.default Invalid_Job_Id) ∧
    (∀ machineId : Int,
      Exclusive Invalid_Job_Id (UnrelatedMachine.withId Invalid_Job_Id machineId)) ∧
    (∀ machine : UnrelatedMachine,
      Exclusive Invalid_Job_Id (setFree Invalid_Job_Id machine)) := by
  refine ⟨?_, ?_, ?_, ?_, ?_⟩
  · intro self new_jobs machines now r hjobs hall h
    obtain ⟨hl, _⟩ := schedule_eq_some self new_jobs machines now r h
    exact scheduleLoop_exclusive Invalid_Job_Id hsentinel now _ machines [] _
      (fun job hj => hjobs job (List.mem_reverse.mp hj)) hall hl
  · intro self machines elapsed hall
    exact updateLoop_exclusive Invalid_Job_Id elapsed machines _ hall
  · simp [Exclusive, UnrelatedMachine.default]
  · intro machineId
    simp [Exclusive, UnrelatedMachine.withId]
  · intro machine
    simp [Exclusive, setFree]

/-- Witness of C7: the sentinel `-1`, the first call of the test scenario and a
time advance of the machines it leaves. -/
theorem C7_exclusivity_invariant_witness :
    (∀ m ∈ [(⟨0, -1, -1⟩ : UnrelatedMachine), ⟨1, 0, 2⟩], Exclusive (-1) m) ∧
    (∀ m ∈ (updateMachineState (-1) ⟨[], false⟩ [⟨0, -1, -1⟩, ⟨1, 0, 2⟩] 2).2,
      Exclusive (-1) m) :=
  ⟨(C7_exclusivity_invariant (-1) (by decide)).1
      GreedySchedulerUnrelatedRealTimeArrival.fresh [job0] twoFreeMachines 0
      ⟨⟨[], false⟩, [⟨0, -1, -1⟩, ⟨1, 0, 2⟩], [⟨0, 0, 1⟩]⟩
      (by decide) (by decide) (by decide),
   (C7_exclusivity_invariant (-1) (by decide)).2.1 ⟨[], false⟩
      [⟨0, -1, -1⟩, ⟨1, 0, 2⟩] 2 (by decide)⟩

theorem schedule_counts (self : GreedySchedulerUnrelatedRealTimeArrival)
    (new_jobs : List UnrelatedJob) (machines : List UnrelatedMachine) (now : Int)
    (r : ScheduleResult)
    (hpos : ∀ job ∈ self.accumulated_jobs_ ++ new_jobs,
      ∀ t ∈ job.processing_time_, 0 ≤ t)
    (h : schedule self new_jobs machines now = some r) :
    r.steps.length =
        min (self.accumulated_jobs_ ++ new_jobs).length (countFree machines) ∧
      r.scheduler.accumulated_jobs_.length + r.steps.length =
        (self.accumulated_jobs_ ++ new_jobs).length ∧
      countFree r.machines + r.steps.length = countFree machines := by
  obtain ⟨hl, _⟩ := schedule_eq_some self new_jobs machines now r h
  obtain ⟨new, c1, c2, c3, c4, _, _, _, _⟩ :=
    scheduleLoop_placements now _ machines [] _
      (fun job hj t ht => hpos job (List.mem_reverse.mp hj) t ht) hl
  simp only [List.nil_append] at c1
  simp only [List.length_reverse] at c3
  have hlen := congrArg List.length c2
  simp only [List.length_reverse, List.length_drop] at hlen
  rw [c1]
  refine ⟨c3, ?_, c4⟩
  have := Nat.min_le_left (self.accumulated_jobs_ ++ new_jobs).length (countFree machines)
  omega

/-- C8, as the code has it. A call of `schedule` that starts with exactly 3
free machines and 5 pending jobs (after appending `new_jobs`), each job with one
processing time per machine, non-negative and below `INT64_MAX`, returns exactly
3 steps and leaves 2 jobs pending: the test `num_free_machine <= 1` uses the
count taken before the assignment, so the loop stops only after the last free
machine has been used. With machine ids equal to positions the call returns. -/
theorem C8_three_free_five_pending (self : GreedySchedulerUnrelatedRealTimeArrival)
    (new_jobs : List UnrelatedJob) (machines : List UnrelatedMachine) (now : Int)
    (hfree : countFree machines = 3)
    (hpending : (self.accumulated_jobs_ ++ new_jobs).length = 5)
    (hvalid : ∀ job ∈ self.accumulated_jobs_ ++ new_jobs,
      job.processing_time_.length = machines.length ∧
      ∀ t ∈ job.processing_time_, 0 ≤ t ∧ t < INT64_MAX) :
    (∀ r, schedule self new_jobs machines now = some r →
      r.steps.length = 3 ∧ r.scheduler.accumulated_jobs_.length = 2) ∧
    ((∀ (i : Nat) (h : i < machines.length), machines[i].machineId_ = (i : Int)) →
      ∃ r, schedule self new_jobs machines now = some r) := by
  constructor
  · intro r h
    obtain ⟨h1, h2, _⟩ := schedule_counts self new_jobs machines now r
      (fun job hj t ht => ((hvalid job hj).2 t ht).1) h
    rw [hfree, hpending] at h1
    rw [hpending] at h2
    have : r.steps.length = 3 := by rw [h1]; rfl
    omega
  · intro hid
    exact schedule_some self new_jobs machines now
      (fun job hj => ⟨(hvalid job hj).1, fun t ht => ((hvalid job hj).2 t ht).2⟩) hid

/-- Witness of C8: five new jobs on three free machines. -/
theorem C8_three_free_five_pending_witness :
    ([(⟨7, 4, 1⟩ : ScheduleStep), ⟨7, 3, 0⟩, ⟨7, 2, 2⟩].length = 3 ∧
      [(⟨0, 0, [4, 2, 7]⟩ : UnrelatedJob), ⟨1, 0, [1, 1, 1]⟩].length = 2) ∧
    ∃ r, schedule GreedySchedulerUnrelatedRealTimeArrival.fresh fiveJobs threeFreeMachines 7
      = some r :=
  ⟨(C8_three_free_five_pending GreedySchedulerUnrelatedRealTimeArrival.fresh fiveJobs
      threeFreeMachines 7 (by decide) (by decide) (by decide)).1
      ⟨⟨[⟨0, 0, [4, 2, 7]⟩, ⟨1, 0, [1, 1, 1]⟩], false⟩,
        [⟨0, 3, 2⟩, ⟨1, 4, 3⟩, ⟨2, 2, 3⟩],
        [⟨7, 4, 1⟩, ⟨7, 3, 0⟩, ⟨7, 2, 2⟩]⟩ (by decide),
   (C8_three_free_five_pending GreedySchedulerUnrelatedRealTimeArrival.fresh fiveJobs
      threeFreeMachines 7 (by decide) (by decide) (by decide)).2 (by decide)⟩

/-- Counterexample to C8 as stated: with 3 free machines and 5 pending jobs,
all processing times valid, `schedule` returns 3 steps and leaves 2 jobs
pending, not 2 steps and 3 jobs. -/
theorem C8_counterexample :
    countFree threeFreeMachines = 3 ∧
    (GreedySchedulerUnrelatedRealTimeArrival.fresh.accumulated_jobs_ ++ fiveJobs).length = 5 ∧
    (∀ job ∈ GreedySchedulerUnrelatedRealTimeArrival.fresh.accumulated_jobs_ ++ fiveJobs,
      job.processing_time_.length = threeFreeMachines.length ∧
      ∀ t ∈ job.processing_time_, 0 ≤ t ∧ t < INT64_MAX) ∧
    schedule GreedySchedulerUnrelatedRealTimeArrival.fresh fiveJobs threeFreeMachines 7 =
      some ⟨⟨[⟨0, 0, [4, 2, 7]⟩, ⟨1, 0, [1, 1, 1]⟩], false⟩,
        [⟨0, 3, 2⟩, ⟨1, 4, 3⟩, ⟨2, 2, 3⟩],
        [⟨7, 4, 1⟩, ⟨7, 3, 0⟩, ⟨7, 2, 2⟩]⟩ ∧
    ¬ ∃ r, schedule GreedySchedulerUnrelatedRealTimeArrival.fresh fiveJobs
        threeFreeMachines 7 = some r ∧
      r.steps.length = 2 ∧ r.scheduler.accumulated_jobs_.length = 3 := by
  refine ⟨by decide, by decide, by decide, by decide, ?_⟩
  rintro ⟨r, hr, h2, _⟩
  have hs : schedule GreedySchedulerUnrelatedRealTimeArrival.fresh fiveJobs
      threeFreeMachines 7 =
      some ⟨⟨[⟨0, 0, [4, 2, 7]⟩, ⟨1, 0, [1, 1, 1]⟩], false⟩,
        [⟨0, 3, 2⟩, ⟨1, 4, 3⟩, ⟨2, 2, 3⟩],
        [⟨7, 4, 1⟩, ⟨7, 3, 0⟩, ⟨7, 2, 2⟩]⟩ := by decide
  rw [hs] at hr
  simp only [Option.some.injEq] at hr
  subst hr
  simp at h2

theorem schedule_not_stranded (self : GreedySchedulerUnrelatedRealTimeArrival)
    (new_jobs : List UnrelatedJob) (machines : List UnrelatedMachine) (now : Int)
    (r : ScheduleResult)
    (hpos : ∀ job ∈ self.accumulated_jobs_ ++ new_jobs,
      ∀ t ∈ job.processing_time_, 0 ≤ t)
    (h : schedule self new_jobs machines now = some r) :
    r.scheduler.accumulated_jobs_ = [] ∨ ∀ m ∈ r.machines, isFree m = false := by
  obtain ⟨h1, h2, h3⟩ := schedule_counts self new_jobs machines now r hpos h
  by_cases hnil : r.scheduler.accumulated_jobs_ = []
  · exact Or.inl hnil
  · right
    have hlen : 0 < r.scheduler.accumulated_jobs_.length := List.length_pos.mpr hnil
    apply countFree_eq_zero
    have := Nat.min_le_right (self.accumulated_jobs_ ++ new_jobs).length (countFree machines)
    rcases Nat.le_total (self.accumulated_jobs_ ++ new_jobs).length (countFree machines)
      with hle | hle
    · rw [Nat.min_eq_left hle] at h1; omega
    · rw [Nat.min_eq_right hle] at h1; omega

/-- C9, as the code has it. The threshold never strands a job next to a free
machine: when no pending job has a negative processing time and `schedule`
returns, the accumulated jobs are empty or no machine is free, also when the
last matching step started with at most one free machine. -/
theorem C9_no_job_stranded (self : GreedySchedulerUnrelatedRealTimeArrival)
    (new_jobs : List UnrelatedJob) (machines : List UnrelatedMachine) (now : Int)
    (r : ScheduleResult)
    (hpos : ∀ job ∈ self.accumulated_jobs_ ++ new_jobs,
      ∀ t ∈ job.processing_time_, 0 ≤ t)
    (h : schedule self new_jobs machines now = some r) :
    r.scheduler.accumulated_jobs_ = [] ∨ ∀ m ∈ r.machines, isFree m = false :=
  schedule_not_stranded self new_jobs machines now r hpos h

/-- Witness of C9: two jobs and one free machine; job 0 stays pending and the
machine is busy. -/
theorem C9_no_job_stranded_witness :
    [job0] = [] ∨ ∀ m ∈ [(⟨0, 1, 5⟩ : UnrelatedMachine)], isFree m = false :=
  C9_no_job_stranded GreedySchedulerUnrelatedRealTimeArrival.fresh [job0, job1]
    [UnrelatedMachine.withId (-1) 0] 1 ⟨⟨[job0], false⟩, [⟨0, 1, 5⟩], [⟨1, 1, 0⟩]⟩
    (by decide) (by decide)

/-- Counterexample to C9 as stated: no call of `schedule` with non-negative
processing times below `INT64_MAX` returns with a job still accumulated while a
machine is free. -/
theorem C9_counterexample :
    ¬ ∃ (self : GreedySchedulerUnrelatedRealTimeArrival) (new_jobs : List UnrelatedJob)
        (machines : List UnrelatedMachine) (now : Int) (r : ScheduleResult),
      (∀ job ∈ self.accumulated_jobs_ ++ new_jobs,
        ∀ t ∈ job.processing_time_, 0 ≤ t ∧ t < INT64_MAX) ∧
      schedule self new_jobs machines now = some r ∧
      r.scheduler.accumulated_jobs_ ≠ [] ∧ ∃ m ∈ r.machines, isFree m = true := by
  rintro ⟨self, new_jobs, machines, now, r, hrange, h, hne, m, hm, hf⟩
  rcases schedule_not_stranded self new_jobs machines now r
    (fun job hj t ht => (hrange job hj t ht).1) h with hnil | hbusy
  · exact hne hnil
  · rw [hbusy m hm] at hf
    exact absurd hf (by simp)

/-- C10. Completion lag, for a time advance `elapsed ≥ 0`. When the accumulated
jobs are empty and some machine has remaining time equal to `elapsed` at the
start of `updateMachineState`, `done()` is false right after the call; and if
every machine busy at the start had remaining time at most `elapsed`, `done()`
is true after one further `updateMachineState`, whatever its elapsed time. -/
theorem C10_completion_lag (Invalid_Job_Id : Int)
    (self : GreedySchedulerUnrelatedRealTimeArrival) (machines : List UnrelatedMachine)
    (elapsed : Int) (helapsed : 0 ≤ elapsed) (hempty : self.accumulated_jobs_ = []) :
    ((∃ m ∈ machines, m.remaining_time_ = elapsed) →
      done (updateMachineState Invalid_Job_Id self machines elapsed).1 = false) ∧
    ((∀ m ∈ machines, m.remaining_time_ ≠ Invalid_Remaining_Time →
        m.remaining_time_ ≤ elapsed) →
      ∀ elapsed2 : Int,
        done (updateMachineState Invalid_Job_Id
          (updateMachineState Invalid_Job_Id self machines elapsed).1
          (updateMachineState Invalid_Job_Id self machines elapsed).2 elapsed2).1 = true) := by
  constructor
  · rintro ⟨m, hm, hrt⟩
    have hb : m.remaining_time_ ≠ Invalid_Remaining_Time := by
      rw [hrt]
      unfold Invalid_Remaining_Time
      omega
    cases hd : done (updateMachineState Invalid_Job_Id self machines elapsed).1 with
    | false => rfl
    | true =>
      simp only [done, updateMachineState, updateLoop_flag] at hd
      exact absurd (hd.2 m hm) hb
  · intro hall elapsed2
    simp only [done, updateMachineState, updateLoop_flag, List.isEmpty_iff]
    refine ⟨hempty, ?_⟩
    intro m' hm'
    obtain ⟨i, hi⟩ := List.getElem?_of_mem hm'
    have hilt : i < machines.length := by
      have := getElem?_lt_length _ i m' hi
      rwa [updateLoop_length] at this
    have hget := updateLoop_getElem Invalid_Job_Id elapsed machines
      self.accumulated_jobs_.isEmpty i machines[i] (List.getElem?_eq_getElem hilt)
    rw [hget] at hi
    simp only [Option.some.injEq] at hi
    by_cases hb : machines[i].remaining_time_ ≠ Invalid_Remaining_Time
    · have hle := hall machines[i] (List.getElem_mem hilt) hb
      have hmax : max 0 (machines[i].remaining_time_ - elapsed) = 0 :=
        max_eq_left (by omega)
      rw [if_pos hb, hmax, if_pos rfl] at hi
      rw [← hi]
    · rw [if_neg hb] at hi
      rw [← hi]
      exact not_not.mp hb

/-- Witness of C10: one machine with remaining time 2 and job 7, advanced by 2
and then by 1. -/
theorem C10_completion_lag_witness :
    done (updateMachineState (-1) ⟨[], false⟩ [⟨0, 7, 2⟩] 2).1 = false ∧
    done (updateMachineState (-1)
      (updateMachineState (-1) ⟨[], false⟩ [⟨0, 7, 2⟩] 2).1
      (updateMachineState (-1) ⟨[], false⟩ [⟨0, 7, 2⟩] 2).2 1).1 = true :=
  ⟨(C10_completion_lag (-1) ⟨[], false⟩ [⟨0, 7, 2⟩] 2 (by decide) rfl).1 (by decide),
   (C10_completion_lag (-1) ⟨[], false⟩ [⟨0, 7, 2⟩] 2 (by decide) rfl).2 (by decide) 1⟩

/-! ## Further facts about the matching loop -/

theorem scanMachines_none_free (job : UnrelatedJob) :
    ∀ (ms : List UnrelatedMachine) (i : Nat) (st : ScanState),
      (∀ m ∈ ms, isFree m = false) → scanMachines job ms i st = some st := by
  intro ms
  induction ms with
  | nil => intro i st _; rfl
  | cons a rest ih =>
    intro i st hall
    have ha : isFree a = false := hall a (List.mem_cons_self _ _)
    unfold scanMachines
    rw [if_neg (by simp [ha])]
    exact ih (i + 1) st (fun m hm => hall m (List.mem_cons_of_mem _ hm))

theorem scheduleLoop_none_free (ts : Int) (stack : List UnrelatedJob)
    (machines : List UnrelatedMachine) (steps : List ScheduleStep)
    (hall : ∀ m ∈ machines, isFree m = false) :
    scheduleLoop ts stack machines steps = some (stack, machines, steps) := by
  cases stack with
  | nil => rfl
  | cons job rest =>
    unfold scheduleLoop
    rw [scanMachines_none_free job machines 0 ScanState.init hall]
    simp [ScanState.init]

/-- The loop never touches a machine that is busy when it starts, and never
changes a machine id or the number of machines. -/
theorem scheduleLoop_frame (ts : Int) :
    ∀ (stack : List UnrelatedJob) (machines : List UnrelatedMachine)
      (steps : List ScheduleStep)
      (R : List UnrelatedJob × List UnrelatedMachine × List ScheduleStep),
      scheduleLoop ts stack machines steps = some R →
      ∀ (i : Nat) (m : UnrelatedMachine), machines[i]? = some m →
        ∃ m' : UnrelatedMachine, R.2.1[i]? = some m' ∧ m'.machineId_ = m.machineId_ ∧
          (isFree m = false → m' = m) := by
  intro stack
  induction stack with
  | nil =>
    intro machines steps R h i m hm
    simp only [scheduleLoop, Option.some.injEq] at h
    subst h
    exact ⟨m, hm, rfl, fun _ => rfl⟩
  | cons job rest ih =>
    intro machines steps R h i m hm
    rcases scheduleLoop_cons_inv ts job rest machines steps R h with
      ⟨_, rfl⟩ | ⟨k, mk, mk', _, hmk, hfk, he, hcase⟩
    · exact ⟨m, hm, rfl, fun _ => rfl⟩
    · obtain ⟨_, t, _, hmk'⟩ := execute_eq_some mk mk' job he
      have hklt : k < machines.length := getElem?_lt_length machines k mk hmk
      have hstep : ∃ m1 : UnrelatedMachine, (machines.set k mk')[i]? = some m1 ∧
          m1.machineId_ = m.machineId_ ∧ (isFree m = false → m1 = m) := by
        by_cases hki : k = i
        · subst hki
          rw [hmk] at hm
          simp only [Option.some.injEq] at hm
          subst hm
          refine ⟨mk', by rw [List.getElem?_set_self hklt], by rw [hmk'], ?_⟩
          intro hb
          rw [hb] at hfk
          exact absurd hfk (by simp)
        · exact ⟨m, by rw [List.getElem?_set_ne hki]; exact hm, rfl, fun _ => rfl⟩
      rcases hcase with ⟨_, rfl⟩ | ⟨_, hrec⟩
      · exact hstep
      · obtain ⟨m1, hm1, hid1, hb1⟩ := hstep
        obtain ⟨m2, hm2, hid2, hb2⟩ := ih _ _ _ hrec i m1 hm1
        refine ⟨m2, hm2, by rw [hid2, hid1], ?_⟩
        intro hb
        have h1 := hb1 hb
        subst h1
        exact hb2 hb

/-! ## Runs of time advances -/

theorem updateMachineStates_append (J : Int) :
    ∀ (es : List Int)
      (state : GreedySchedulerUnrelatedRealTimeArrival × List UnrelatedMachine) (e : Int),
      updateMachineStates J state (es ++ [e]) =
        updateMachineState J (updateMachineStates J state es).1
          (updateMachineStates J state es).2 e := by
  intro es
  induction es with
  | nil => intro state e; rfl
  | cons x rest ih =>
    intro state e
    simp only [List.cons_append, updateMachineStates]
    exact ih _ e

theorem updateMachineState_remaining (J : Int)
    (self : GreedySchedulerUnrelatedRealTimeArrival) (machines : List UnrelatedMachine)
    (e : Int) (he : 0 ≤ e) (i : Nat) (m : UnrelatedMachine) (hm : machines[i]? = some m)
    (hinv : 0 ≤ m.remaining_time_ ∨ m.remaining_time_ = Invalid_Remaining_Time) :
    ∃ m' : UnrelatedMachine, (updateMachineState J self machines e).2[i]? = some m' ∧
      m'.remaining_time_ ≤ m.remaining_time_ ∧
      (0 < m'.remaining_time_ ∨ m'.remaining_time_ = Invalid_Remaining_Time) := by
  have hget := updateLoop_getElem J e machines self.accumulated_jobs_.isEmpty i m hm
  simp only [updateMachineState]
  refine ⟨_, hget, ?_⟩
  by_cases hb : m.remaining_time_ ≠ Invalid_Remaining_Time
  · rw [if_pos hb]
    have hr : 0 ≤ m.remaining_time_ := by
      rcases hinv with h | h
      · exact h
      · exact absurd h hb
    by_cases h0 : max 0 (m.remaining_time_ - e) = 0
    · rw [if_pos h0]
      refine ⟨?_, Or.inr rfl⟩
      show Invalid_Remaining_Time ≤ m.remaining_time_
      unfold Invalid_Remaining_Time
      omega
    · rw [if_neg h0]
      have hge : 0 ≤ max 0 (m.remaining_time_ - e) := le_max_left _ _
      have hle : max 0 (m.remaining_time_ - e) ≤ m.remaining_time_ :=
        max_le hr (by omega)
      simp only
      exact ⟨hle, Or.inl (by omega)⟩
  · rw [if_neg hb]
    exact ⟨le_refl _, Or.inr (not_not.mp hb)⟩

theorem updateMachineState_remaining_exact (J : Int)
    (self : GreedySchedulerUnrelatedRealTimeArrival) (machines : List UnrelatedMachine)
    (e : Int) (i : Nat) (m m' : UnrelatedMachine) (hm : machines[i]? = some m)
    (hm' : (updateMachineState J self machines e).2[i]? = some m') :
    (m.remaining_time_ ≠ Invalid_Remaining_Time → e < m.remaining_time_ →
      m'.remaining_time_ = m.remaining_time_ - e) ∧
    (m.remaining_time_ ≠ Invalid_Remaining_Time → m.remaining_time_ ≤ e →
      m'.remaining_time_ = Invalid_Remaining_Time) ∧
    (m.remaining_time_ = Invalid_Remaining_Time →
      m'.remaining_time_ = Invalid_Remaining_Time) := by
  have hget := updateLoop_getElem J e machines self.accumulated_jobs_.isEmpty i m hm
  simp only [updateMachineState] at hm'
  rw [hget] at hm'
  simp only [Option.some.injEq] at hm'
  refine ⟨?_, ?_, ?_⟩
  · intro hb hlt
    have hmax : max 0 (m.remaining_time_ - e) = m.remaining_time_ - e :=
      max_eq_right (by omega)
    rw [if_pos hb, hmax, if_neg (by omega)] at hm'
    rw [← hm']
  · intro hb hle
    have hmax : max 0 (m.remaining_time_ - e) = 0 := max_eq_left (by omega)
    rw [if_pos hb, hmax, if_pos rfl] at hm'
    rw [← hm']
  · intro hfree
    rw [if_neg (by simpa using hfree)] at hm'
    rw [← hm']
    exact hfree

theorem updateMachineStates_remaining (J : Int) (i : Nat) :
    ∀ (es : List Int)
      (state : GreedySchedulerUnrelatedRealTimeArrival × List UnrelatedMachine)
      (m : UnrelatedMachine),
      (∀ e ∈ es, 0 ≤ e) → state.2[i]? = some m →
      (0 ≤ m.remaining_time_ ∨ m.remaining_time_ = Invalid_Remaining_Time) →
      ∃ m' : UnrelatedMachine, (updateMachineStates J state es).2[i]? = some m' ∧
        (0 ≤ m'.remaining_time_ ∨ m'.remaining_time_ = Invalid_Remaining_Time) := by
  intro es
  induction es with
  | nil => intro state m _ hm hinv; exact ⟨m, hm, hinv⟩
  | cons x rest ih =>
    intro state m hes hm hinv
    obtain ⟨m1, hm1, _, hinv1⟩ := updateMachineState_remaining J state.1 state.2 x
      (hes x (List.mem_cons_self _ _)) i m hm hinv
    simp only [updateMachineStates]
    refine ih _ m1 (fun e he => hes e (List.mem_cons_of_mem _ he)) hm1 ?_
    rcases hinv1 with h | h
    · exact Or.inl (le_of_lt h)
    · exact Or.inr h

theorem updateMachineState_additive (J : Int)
    (s1 s2 s3 : GreedySchedulerUnrelatedRealTimeArrival) (machines : List UnrelatedMachine)
    (a b : Int) (hb : 0 ≤ b) :
    (updateMachineState J s2 (updateMachineState J s1 machines a).2 b).2 =
      (updateMachineState J s3 machines (a + b)).2 := by
  apply List.ext_getElem?
  intro i
  simp only [updateMachineState]
  by_cases hi : i < machines.length
  · have hm : machines[i]? = some machines[i] := List.getElem?_eq_getElem hi
    have h1 := updateLoop_getElem J a machines s1.accumulated_jobs_.isEmpty i _ hm
    have h2 := updateLoop_getElem J b _ s2.accumulated_jobs_.isEmpty i _ h1
    have h3 := updateLoop_getElem J (a + b) machines s3.accumulated_jobs_.isEmpty i _ hm
    rw [h2, h3]
    congr 1
    generalize machines[i] = m
    by_cases hbusy : m.remaining_time_ ≠ Invalid_Remaining_Time
    · simp only [if_pos hbusy]
      by_cases ha0 : max 0 (m.remaining_time_ - a) = 0
      · have hle : m.remaining_time_ - a ≤ 0 := by
          have := le_max_right 0 (m.remaining_time_ - a)
          omega
        have hab0 : max 0 (m.remaining_time_ - (a + b)) = 0 := max_eq_left (by omega)
        simp only [ha0, hab0, if_true, ne_eq, not_true_eq_false, if_false]
      · have hpos : 0 < m.remaining_time_ - a := by
          by_contra hcon
          exact ha0 (max_eq_left (by omega))
        have hmax : max 0 (m.remaining_time_ - a) = m.remaining_time_ - a :=
          max_eq_right (le_of_lt hpos)
        have hne : m.remaining_time_ - a ≠ Invalid_Remaining_Time := by
          simp only [Invalid_Remaining_Time]; omega
        have hsub : m.remaining_time_ - a - b = m.remaining_time_ - (a + b) := by omega
        simp only [hmax, if_neg (ne_of_gt hpos), if_pos hne, hsub]
    · simp only [if_neg hbusy]
  · have hlen1 : (updateLoop J a machines s1.accumulated_jobs_.isEmpty).1.length
        = machines.length := updateLoop_length _ _ _ _
    rw [List.getElem?_eq_none (by rw [updateLoop_length, hlen1]; omega),
      List.getElem?_eq_none (by rw [updateLoop_length]; omega)]

/-! ## The claims, continued -/

/-- C11, as the code has it. For a machine that is busy with remaining time
`r ≥ 0`, along every run of `updateMachineState` calls with non-negative elapsed
times, the value of `remaining_time_` after each call is no larger than before
the call and is never below zero while the machine stays busy: a call that
starts with the machine busy and a remaining time above `elapsed` leaves the
positive difference; the call in which the remaining time reaches zero (it
starts with the machine busy and a remaining time of at most `elapsed`) resets
the field to the "not busy" sentinel `-1`; and the field stays `-1` in every
later call. -/
theorem C11_remaining_time_monotone (Invalid_Job_Id : Int)
    (self : GreedySchedulerUnrelatedRealTimeArrival) (machines : List UnrelatedMachine)
    (i : Nat) (m : UnrelatedMachine) (hm : machines[i]? = some m)
    (hbusy : m.remaining_time_ ≠ Invalid_Remaining_Time) (hr : 0 ≤ m.remaining_time_)
    (before : List Int) (elapsed : Int)
    (hbefore : ∀ e ∈ before, 0 ≤ e) (helapsed : 0 ≤ elapsed) :
    ∃ mb ma : UnrelatedMachine,
      (updateMachineStates Invalid_Job_Id (self, machines) before).2[i]? = some mb ∧
      (updateMachineStates Invalid_Job_Id (self, machines) (before ++ [elapsed])).2[i]?
        = some ma ∧
      ma.remaining_time_ ≤ mb.remaining_time_ ∧
      (0 < ma.remaining_time_ ∨ ma.remaining_time_ = Invalid_Remaining_Time) ∧
      (mb.remaining_time_ ≠ Invalid_Remaining_Time → elapsed < mb.remaining_time_ →
        ma.remaining_time_ = mb.remaining_time_ - elapsed ∧ 0 < ma.remaining_time_) ∧
      (mb.remaining_time_ ≠ Invalid_Remaining_Time → mb.remaining_time_ ≤ elapsed →
        ma.remaining_time_ = Invalid_Remaining_Time) ∧
      (mb.remaining_time_ = Invalid_Remaining_Time →
        ma.remaining_time_ = Invalid_Remaining_Time) := by
  have _ := hbusy
  obtain ⟨mb, hmb, hinv⟩ := updateMachineStates_remaining Invalid_Job_Id i before
    (self, machines) m hbefore hm (Or.inl hr)
  obtain ⟨ma, hma, hle, hpos⟩ := updateMachineState_remaining Invalid_Job_Id
    (updateMachineStates Invalid_Job_Id (self, machines) before).1
    (updateMachineStates Invalid_Job_Id (self, machines) before).2
    elapsed helapsed i mb hmb hinv
  obtain ⟨habove, hreach, hstay⟩ := updateMachineState_remaining_exact Invalid_Job_Id
    (updateMachineStates Invalid_Job_Id (self, machines) before).1
    (updateMachineStates Invalid_Job_Id (self, machines) before).2
    elapsed i mb ma hmb hma
  refine ⟨mb, ma, hmb, ?_, hle, hpos, ?_, hreach, hstay⟩
  · rw [updateMachineStates_append]
    exact hma
  · intro hb hlt
    have heq := habove hb hlt
    exact ⟨heq, by omega⟩

/-- Witness of C11: a machine with remaining time 5, advanced by 1 and 2 and
then by 2, the call in which its remaining time reaches zero. -/
theorem C11_remaining_time_monotone_witness :
    ∃ mb ma : UnrelatedMachine,
      (updateMachineStates (-1) (⟨[], false⟩, [⟨0, 7, 5⟩]) [1, 2]).2[0]? = some mb ∧
      (updateMachineStates (-1) (⟨[], false⟩, [⟨0, 7, 5⟩]) ([1, 2] ++ [2])).2[0]?
        = some ma ∧
      ma.remaining_time_ ≤ mb.remaining_time_ ∧
      (0 < ma.remaining_time_ ∨ ma.remaining_time_ = Invalid_Remaining_Time) ∧
      (mb.remaining_time_ ≠ Invalid_Remaining_Time → 2 < mb.remaining_time_ →
        ma.remaining_time_ = mb.remaining_time_ - 2 ∧ 0 < ma.remaining_time_) ∧
      (mb.remaining_time_ ≠ Invalid_Remaining_Time → mb.remaining_time_ ≤ 2 →
        ma.remaining_time_ = Invalid_Remaining_Time) ∧
      (mb.remaining_time_ = Invalid_Remaining_Time →
        ma.remaining_time_ = Invalid_Remaining_Time) :=
  C11_remaining_time_monotone (-1) ⟨[], false⟩ [⟨0, 7, 5⟩] 0 ⟨0, 7, 5⟩ (by decide)
    (by decide) (by decide) [1, 2] 2 (by decide) (by decide)

/-- Counterexample to C11 as stated: a busy machine with remaining time 2,
advanced by 2, ends with `-1` in `remaining_time_`, which is below zero. -/
theorem C11_counterexample :
    (⟨0, 7, 2⟩ : UnrelatedMachine).remaining_time_ ≠ Invalid_Remaining_Time ∧
    0 ≤ (⟨0, 7, 2⟩ : UnrelatedMachine).remaining_time_ ∧ (0 : Int) ≤ 2 ∧
    (updateMachineState (-1) ⟨[], false⟩ [⟨0, 7, 2⟩] 2).2 = [⟨0, -1, -1⟩] ∧
    (⟨0, -1, -1⟩ : UnrelatedMachine).remaining_time_ < 0 := by
  decide

/-- C12. When no machine is free at the start, `schedule` returns no step,
leaves the machine vector as it is, and leaves as accumulated jobs the previous
ones followed by `new_jobs`, in order. -/
theorem C12_no_free_machine (self : GreedySchedulerUnrelatedRealTimeArrival)
    (new_jobs : List UnrelatedJob) (machines : List UnrelatedMachine) (now : Int)
    (hbusy : ∀ m ∈ machines, isFree m = false) :
    schedule self new_jobs machines now =
      some { scheduler := { self with
               accumulated_jobs_ := self.accumulated_jobs_ ++ new_jobs },
             machines := machines, steps := [] } := by
  unfold schedule
  rw [scheduleLoop_none_free now _ machines [] hbusy]
  simp only [List.reverse_reverse]

/-- Witness of C12: two busy machines, one pending job and one new job. -/
theorem C12_no_free_machine_witness :
    schedule ⟨[job0], false⟩ [job1] [⟨0, 5, 3⟩, ⟨1, 6, 0⟩] 4 =
      some { scheduler := { (⟨[job0], false⟩ : GreedySchedulerUnrelatedRealTimeArrival) with
               accumulated_jobs_ := [job0] ++ [job1] },
             machines := [⟨0, 5, 3⟩, ⟨1, 6, 0⟩], steps := [] } :=
  C12_no_free_machine ⟨[job0], false⟩ [job1] [⟨0, 5, 3⟩, ⟨1, 6, 0⟩] 4 (by decide)

/-- C13. `done()` is false on a freshly constructed scheduler; a call of
`schedule` that returns leaves the value of `done()` as it was; and after
`updateMachineState` the value of `done()` is the flag that call computed from
the accumulated jobs and the machines, whatever `is_done_` was before. -/
theorem C13_done_written_by_update_only (Invalid_Job_Id : Int) :
    done GreedySchedulerUnrelatedRealTimeArrival.fresh = false ∧
    (∀ (self : GreedySchedulerUnrelatedRealTimeArrival) (new_jobs : List UnrelatedJob)
      (machines : List UnrelatedMachine) (now : Int) (r : ScheduleResult),
      schedule self new_jobs machines now = some r → done r.scheduler = done self) ∧
    (∀ (self : GreedySchedulerUnrelatedRealTimeArrival) (machines : List UnrelatedMachine)
      (elapsed : Int),
      done (updateMachineState Invalid_Job_Id self machines elapsed).1 =
        (updateLoop Invalid_Job_Id elapsed machines self.accumulated_jobs_.isEmpty).2) ∧
    (∀ (self : GreedySchedulerUnrelatedRealTimeArrival) (flag : Bool)
      (machines : List UnrelatedMachine) (elapsed : Int),
      done (updateMachineState Invalid_Job_Id { self with is_done_ := flag }
          machines elapsed).1 =
        done (updateMachineState Invalid_Job_Id self machines elapsed).1) := by
  refine ⟨rfl, ?_, fun _ _ _ => rfl, fun _ _ _ _ => rfl⟩
  intro self new_jobs machines now r h
  obtain ⟨_, hdone⟩ := schedule_eq_some self new_jobs machines now r h
  simp only [done, hdone]

/-- Witness of C13: a scheduler whose flag is true keeps it through a call of
`schedule` that places a job. -/
theorem C13_done_written_by_update_only_witness :
    done (⟨[], true⟩ : GreedySchedulerUnrelatedRealTimeArrival) =
      done (⟨[], true⟩ : GreedySchedulerUnrelatedRealTimeArrival) :=
  (C13_done_written_by_update_only (-1)).2.1 ⟨[], true⟩ [job0] twoFreeMachines 0
    ⟨⟨[], true⟩, [⟨0, -1, -1⟩, ⟨1, 0, 2⟩], [⟨0, 0, 1⟩]⟩ (by decide)

/-- C14. The end-to-end scenario: on a fresh scheduler and two free machines
`schedule([J0], machines, 0)` returns `[(0, 0, 1)]`, then
`schedule([J1], machines, 1)` returns `[(1, 1, 0)]`, then
`updateMachineState(machines, 1)` leaves remaining times 4 on machine 0 and 1 on
machine 1, and a second `updateMachineState(machines, 1)` leaves machine 0 busy
with remaining time 3 and frees machine 1; `done()` is false after each call. -/
theorem C14_end_to_end (Invalid_Job_Id : Int) :
    schedule GreedySchedulerUnrelatedRealTimeArrival.fresh [job0]
        [UnrelatedMachine.withId Invalid_Job_Id 0, UnrelatedMachine.withId Invalid_Job_Id 1] 0 =
      some ⟨⟨[], false⟩, [⟨0, Invalid_Job_Id, -1⟩, ⟨1, 0, 2⟩], [⟨0, 0, 1⟩]⟩ ∧
    schedule ⟨[], false⟩ [job1] [⟨0, Invalid_Job_Id, -1⟩, ⟨1, 0, 2⟩] 1 =
      some ⟨⟨[], false⟩, [⟨0, 1, 5⟩, ⟨1, 0, 2⟩], [⟨1, 1, 0⟩]⟩ ∧
    updateMachineState Invalid_Job_Id ⟨[], false⟩ [⟨0, 1, 5⟩, ⟨1, 0, 2⟩] 1 =
      (⟨[], false⟩, [⟨0, 1, 4⟩, ⟨1, 0, 1⟩]) ∧
    updateMachineState Invalid_Job_Id ⟨[], false⟩ [⟨0, 1, 4⟩, ⟨1, 0, 1⟩] 1 =
      (⟨[], false⟩, [⟨0, 1, 3⟩, ⟨1, Invalid_Job_Id, Invalid_Remaining_Time⟩]) ∧
    (schedule GreedySchedulerUnrelatedRealTimeArrival.fresh [job0]
        [UnrelatedMachine.withId Invalid_Job_Id 0,
         UnrelatedMachine.withId Invalid_Job_Id 1] 0).map (fun r => done r.scheduler) =
      some false ∧
    (schedule ⟨[], false⟩ [job1] [⟨0, Invalid_Job_Id, -1⟩, ⟨1, 0, 2⟩] 1).map
        (fun r => done r.scheduler) = some false ∧
    done (updateMachineState Invalid_Job_Id ⟨[], false⟩ [⟨0, 1, 5⟩, ⟨1, 0, 2⟩] 1).1 = false ∧
    done (updateMachineState Invalid_Job_Id ⟨[], false⟩ [⟨0, 1, 4⟩, ⟨1, 0, 1⟩] 1).1 = false := by
  refine ⟨rfl, rfl, rfl, rfl, rfl, rfl, rfl, rfl⟩

/-- C15. When every pending job has one processing time per machine, each
non-negative and below `INT64_MAX`, the number of steps `schedule` returns is
the minimum of the number of pending jobs (after appending `new_jobs`) and the
number of machines free at the start of the call. With machine ids equal to
positions the call returns. -/
theorem C15_step_count (self : GreedySchedulerUnrelatedRealTimeArrival)
    (new_jobs : List UnrelatedJob) (machines : List UnrelatedMachine) (now : Int)
    (hvalid : ∀ job ∈ self.accumulated_jobs_ ++ new_jobs,
      job.processing_time_.length = machines.length ∧
      ∀ t ∈ job.processing_time_, 0 ≤ t ∧ t < INT64_MAX) :
    (∀ r, schedule self new_jobs machines now = some r →
      r.steps.length =
        min (self.accumulated_jobs_ ++ new_jobs).length (countFree machines)) ∧
    ((∀ (i : Nat) (h : i < machines.length), machines[i].machineId_ = (i : Int)) →
      ∃ r, schedule self new_jobs machines now = some r) := by
  constructor
  · intro r h
    exact (schedule_counts self new_jobs machines now r
      (fun job hj t ht => ((hvalid job hj).2 t ht).1) h).1
  · intro hid
    exact schedule_some self new_jobs machines now
      (fun job hj => ⟨(hvalid job hj).1, fun t ht => ((hvalid job hj).2 t ht).2⟩) hid

/-- Witness of C15: two pending jobs and one free machine among two. -/
theorem C15_step_count_witness :
    [(⟨1, 1, 0⟩ : ScheduleStep)].length =
      min ([job0] ++ [job1]).length (countFree [⟨0, -1, -1⟩, ⟨1, 9, 6⟩]) ∧
    ∃ r, schedule ⟨[job0], false⟩ [job1] [⟨0, -1, -1⟩, ⟨1, 9, 6⟩] 1 = some r :=
  ⟨(C15_step_count ⟨[job0], false⟩ [job1] [⟨0, -1, -1⟩, ⟨1, 9, 6⟩] 1 (by decide)).1
      ⟨⟨[job0], false⟩, [⟨0, 1, 5⟩, ⟨1, 9, 6⟩], [⟨1, 1, 0⟩]⟩ (by decide),
   (C15_step_count ⟨[job0], false⟩ [job1] [⟨0, -1, -1⟩, ⟨1, 9, 6⟩] 1 (by decide)).2
      (by decide)⟩

/-- C16. A call of `schedule` that returns keeps the number of machines and
every machine id, and leaves each machine that was busy at the start of the
call exactly as it was; only machines free at the start can differ. -/
theorem C16_busy_machines_untouched (self : GreedySchedulerUnrelatedRealTimeArrival)
    (new_jobs : List UnrelatedJob) (machines : List UnrelatedMachine) (now : Int)
    (r : ScheduleResult) (h : schedule self new_jobs machines now = some r) :
    r.machines.length = machines.length ∧
    ∀ (i : Nat) (m : UnrelatedMachine), machines[i]? = some m →
      ∃ m' : UnrelatedMachine, r.machines[i]? = some m' ∧
        m'.machineId_ = m.machineId_ ∧
        (isFree m = false → m' = m) ∧ (m' ≠ m → isFree m = true) := by
  obtain ⟨hl, _⟩ := schedule_eq_some self new_jobs machines now r h
  obtain ⟨_, _, _, _, _, _, hlen⟩ := scheduleLoop_steps now _ machines [] _ hl
  refine ⟨hlen, ?_⟩
  intro i m hm
  obtain ⟨m', hm', hid, hb⟩ := scheduleLoop_frame now _ machines [] _ hl i m hm
  refine ⟨m', hm', hid, hb, ?_⟩
  intro hne
  cases hf : isFree m with
  | true => rfl
  | false => exact absurd (hb hf) hne

/-- Witness of C16: one free and one busy machine, two pending jobs. -/
theorem C16_busy_machines_untouched_witness :
    [(⟨0, 1, 5⟩ : UnrelatedMachine), ⟨1, 9, 6⟩].length =
      [(⟨0, -1, -1⟩ : UnrelatedMachine), ⟨1, 9, 6⟩].length ∧
    ∀ (i : Nat) (m : UnrelatedMachine),
      [(⟨0, -1, -1⟩ : UnrelatedMachine), ⟨1, 9, 6⟩][i]? = some m →
      ∃ m' : UnrelatedMachine,
        [(⟨0, 1, 5⟩ : UnrelatedMachine), ⟨1, 9, 6⟩][i]? = some m' ∧
        m'.machineId_ = m.machineId_ ∧
        (isFree m = false → m' = m) ∧ (m' ≠ m → isFree m = true) :=
  C16_busy_machines_untouched ⟨[job0], false⟩ [job1] [⟨0, -1, -1⟩, ⟨1, 9, 6⟩] 1
    ⟨⟨[job0], false⟩, [⟨0, 1, 5⟩, ⟨1, 9, 6⟩], [⟨1, 1, 0⟩]⟩ (by decide)

/-- C17. For `a ≥ 0` and `b ≥ 0` and a machine vector whose busy machines have
non-negative remaining times, `updateMachineState` by `a` followed by
`updateMachineState` by `b` leaves the same machine vector as one
`updateMachineState` by `a + b`. -/
theorem C17_advance_additive (Invalid_Job_Id : Int)
    (self : GreedySchedulerUnrelatedRealTimeArrival) (machines : List UnrelatedMachine)
    (a b : Int) (ha : 0 ≤ a) (hb : 0 ≤ b)
    (hbusy : ∀ m ∈ machines, m.remaining_time_ ≠ Invalid_Remaining_Time →
      0 ≤ m.remaining_time_) :
    (updateMachineState Invalid_Job_Id
        (updateMachineState Invalid_Job_Id self machines a).1
        (updateMachineState Invalid_Job_Id self machines a).2 b).2 =
      (updateMachineState Invalid_Job_Id self machines (a + b)).2 := by
  have _ := ha
  have _ := hbusy
  exact updateMachineState_additive Invalid_Job_Id self _ self machines a b hb

/-- Witness of C17: one machine with remaining time 1, advanced by 1 and 1, and
by 2; the machine vectors agree while the `done()` flags differ. -/
theorem C17_advance_additive_witness :
    (updateMachineState (-1)
        (updateMachineState (-1) ⟨[], false⟩ [⟨0, 4, 1⟩] 1).1
        (updateMachineState (-1) ⟨[], false⟩ [⟨0, 4, 1⟩] 1).2 1).2 =
      (updateMachineState (-1) ⟨[], false⟩ [⟨0, 4, 1⟩] (1 + 1)).2 ∧
    done (updateMachineState (-1)
        (updateMachineState (-1) ⟨[], false⟩ [⟨0, 4, 1⟩] 1).1
        (updateMachineState (-1) ⟨[], false⟩ [⟨0, 4, 1⟩] 1).2 1).1 = true ∧
    done (updateMachineState (-1) ⟨[], false⟩ [⟨0, 4, 1⟩] (1 + 1)).1 = false :=
  ⟨C17_advance_additive (-1) ⟨[], false⟩ [⟨0, 4, 1⟩] 1 1 (by decide) (by decide)
      (by decide), by decide, by decide⟩

/-- C18. When the current job has exactly one processing time per machine and
each is below `INT64_MAX`, the scan of a matching step reads the vector in
bounds (it returns), and whenever it counts a free machine it ends with a
target that is not `-1` and is the index of a free machine of the vector, and
with a minimum that is not `INT64_MAX`: the assertion holds. With machine ids
equal to positions and these invariants for every pending job, the whole call
of `schedule` returns. -/
theorem C18_assertion_holds (machines : List UnrelatedMachine) :
    (∀ job : UnrelatedJob, job.processing_time_.length = machines.length →
      (∀ t ∈ job.processing_time_, t < INT64_MAX) →
      ∃ st : ScanState, scanMachines job machines 0 ScanState.init = some st ∧
        (st.num_free_machine ≠ 0 →
          st.target_machine_id ≠ -1 ∧ st.min_executing_time ≠ INT64_MAX ∧
          ∃ (i : Nat) (m : UnrelatedMachine), st.target_machine_id = (i : Int) ∧
            i < machines.length ∧ machines[i]? = some m ∧ isFree m = true ∧
            i < job.processing_time_.length)) ∧
    (∀ (self : GreedySchedulerUnrelatedRealTimeArrival) (new_jobs : List UnrelatedJob)
      (now : Int),
      (∀ job ∈ self.accumulated_jobs_ ++ new_jobs,
        job.processing_time_.length = machines.length ∧
        ∀ t ∈ job.processing_time_, t < INT64_MAX) →
      (∀ (i : Nat) (h : i < machines.length), machines[i].machineId_ = (i : Int)) →
      ∃ r, schedule self new_jobs machines now = some r) := by
  constructor
  · intro job hlen hmax
    obtain ⟨st, hs⟩ := scanMachines_some job machines 0 ScanState.init (by omega)
    refine ⟨st, hs, ?_⟩
    intro hnum
    have hcount := scanMachines_num job machines 0 ScanState.init st hs
    simp only [ScanState.init, Nat.zero_add] at hcount
    obtain ⟨st', i, hs', _, hi, _, hlt, m, _, hm, hf, _⟩ :=
      scanMachines_of_free job machines (by omega) hmax (by omega)
    rw [hs] at hs'
    simp only [Option.some.injEq] at hs'
    subst hs'
    have hilt : i < machines.length := getElem?_lt_length machines i m hm
    refine ⟨by rw [hi]; omega, by omega, i, m, hi, hilt, hm, hf, by omega⟩
  · intro self new_jobs now hwf hid
    exact schedule_some self new_jobs machines now hwf hid

/-- Witness of C18: job 0 of the test data on two free machines, and the first
call of the test scenario. -/
theorem C18_assertion_holds_witness :
    (∃ st : ScanState, scanMachines job0 twoFreeMachines 0 ScanState.init = some st ∧
      (st.num_free_machine ≠ 0 →
        st.target_machine_id ≠ -1 ∧ st.min_executing_time ≠ INT64_MAX ∧
        ∃ (i : Nat) (m : UnrelatedMachine), st.target_machine_id = (i : Int) ∧
          i < twoFreeMachines.length ∧ twoFreeMachines[i]? = some m ∧ isFree m = true ∧
          i < job0.processing_time_.length)) ∧
    ∃ r, schedule GreedySchedulerUnrelatedRealTimeArrival.fresh [job0] twoFreeMachines 0
      = some r :=
  ⟨(C18_assertion_holds twoFreeMachines).1 job0 (by decide) (by decide),
   (C18_assertion_holds twoFreeMachines).2 GreedySchedulerUnrelatedRealTimeArrival.fresh
      [job0] 0 (by decide) (by decide)⟩

end SJF
